import Mathlib

/-!
Leader selection of dexon-consensus-core (core/leader-selector.go)

A shallow embedding of the leader selector: the selector record, its
constructor, the distance metric, restart, and processBlock, followed by the
properties of the closest-hash-wins sortition.

Conventions.
* `*big.Int` values are Lean integers (`Int`), exact and unbounded.
* `common.Hash` is a byte array of `HashLength` bytes.  The constant
  `common.HashLength` is declared in package `common`, outside the files
  embedded here, so the width is a parameter `n` of every definition.
* The collaborators of package `crypto` and the helpers `hashCRS` and
  `verifyCRSSignature` live in other files; they are fields of the record
  `Collaborators`, over which every theorem is universally quantified.
-/

set_option maxRecDepth 8000

namespace DexonCore

/-! ## Data model -/

/-- One octet. -/
abbrev Byte := Fin 256

/-- The type `common.Hash`: an array of exactly `n` bytes. -/
structure Hash (n : Nat) where
  bytes : List Byte
  size : bytes.length = n
deriving DecidableEq

/-- The zero value `common.Hash{}`: every byte is zero. -/
def Hash.zero (n : Nat) : Hash n := ⟨List.replicate n 0, by simp⟩

/-- The type `crypto.Signature`, a byte slice. -/
abbrev Signature := List Byte

/-- The type `crypto.PublicKey`, kept as its byte encoding. -/
abbrev PublicKey := List Byte

/-- Go values of type `error` that are not nil.  The package declares
`ErrIncorrectCRSSignature`; every other error comes from a collaborator and is
identified by its message. -/
inductive GoError where
  | ErrIncorrectCRSSignature
  | external (msg : String)
deriving DecidableEq, Repr

/-- The type `SigToPubFn`: recovers a public key from a message hash and a
signature, or fails. -/
abbrev SigToPubFn (n : Nat) := Hash n → Signature → PublicKey × Option GoError

/-- The part of `types.Block` the selector touches: the block hash and the CRS
signature.  The remaining content of a block is carried along as `ProposerID`
and `Payload`, which only the collaborators inspect. -/
structure Block (n : Nat) where
  Hash : Hash n
  CRSSignature : Signature
  ProposerID : List Byte
  Payload : List Byte
deriving DecidableEq

/-- The type `crypto.PrivateKey`, reduced to its method `Sign`, which returns a
signature together with an error that may be nil. -/
structure PrivateKey (n : Nat) where
  Sign : Hash n → Signature × Option GoError

/-- Functions of this code base that the selector calls and that are defined
in other files: `crypto.Keccak256Hash`, `hashCRS` and `verifyCRSSignature`. -/
structure Collaborators (n : Nat) where
  Keccak256Hash : List Byte → Hash n
  hashCRS : Block n → Hash n → Hash n
  verifyCRSSignature : Block n → Hash n → SigToPubFn n → Bool × Option GoError

/-! ## Big integers -/

/-- The method `(*big.Int).SetBytes`: the bytes read as an unsigned big-endian
integer. -/
def SetBytes (buf : List Byte) : Int :=
  buf.foldl (fun acc b => acc * 256 + (b.val : Int)) 0

/-- The method `(*big.Int).Cmp`: -1, 0 or +1. -/
def Cmp (x y : Int) : Int :=
  if x < y then -1 else if x = y then 0 else 1

/-- The method `(*big.Int).Abs`. -/
def Abs (x : Int) : Int := (Int.natAbs x : Int)

/-- The package variable `maxHash` as `init` computes it: a slice of `n` bytes
is allocated (all zero), every entry is overwritten with 0xff, and the slice
is read as a big-endian integer. -/
def maxHash (n : Nat) : Int :=
  SetBytes ((List.replicate n (0 : Byte)).map (fun _ => (0xff : Byte)))

/-! ## The selector -/

/-- The struct `leaderSelector`. -/
structure leaderSelector (n : Nat) where
  hashCRS : Hash n
  numCRS : Int
  minCRSBlock : Int
  minBlockHash : Hash n
  sigToPub : SigToPubFn n

/-- The function `newLeaderSelector`; the field `minBlockHash` is not named in
the composite literal and so holds its zero value. -/
def newLeaderSelector {n : Nat} (crs : Hash n) (sigToPub : SigToPubFn n) :
    leaderSelector n :=
  { numCRS := SetBytes crs.bytes
    hashCRS := crs
    minCRSBlock := maxHash n
    minBlockHash := Hash.zero n
    sigToPub := sigToPub }

/-- The function `newGenesisLeaderSelector`. -/
def newGenesisLeaderSelector {n : Nat} (env : Collaborators n) (crs : List Byte)
    (sigToPub : SigToPubFn n) : leaderSelector n :=
  newLeaderSelector (env.Keccak256Hash crs) sigToPub

/-- The method `distance`: the digest of the signature bytes as an integer,
subtracted from `numCRS`, in absolute value. -/
def distance {n : Nat} (env : Collaborators n) (l : leaderSelector n)
    (sig : Signature) : Int :=
  let hash := env.Keccak256Hash sig
  let num := SetBytes hash.bytes
  Abs (l.numCRS - num)

/-- The method `probability` up to its last step: the exact rational to which
`Float64` is applied, that is `one` minus the fraction `dis / maxHash`.  The
conversion to a floating-point number is not part of the embedding.
`SetFrac` panics on a zero denominator, which is the result `none`. -/
def probability {n : Nat} (env : Collaborators n) (l : leaderSelector n)
    (sig : Signature) : Option ℚ :=
  let dis := distance env l sig
  if maxHash n = 0 then none
  else
    let prob : ℚ := (dis : ℚ) / (maxHash n : ℚ)
    some (1 - prob)

/-- The method `restart`. -/
def restart {n : Nat} (l : leaderSelector n) : leaderSelector n :=
  { l with minCRSBlock := maxHash n, minBlockHash := Hash.zero n }

/-- The method `leaderBlockHash`. -/
def leaderBlockHash {n : Nat} (l : leaderSelector n) : Hash n :=
  l.minBlockHash

/-- The method `prepareBlock`: the selector after the call (the method assigns
to none of its fields), the block with its `CRSSignature` overwritten by
whatever `Sign` returned, and the error of `Sign`. -/
def prepareBlock {n : Nat} (env : Collaborators n) (l : leaderSelector n)
    (block : Block n) (prv : PrivateKey n) :
    leaderSelector n × Block n × Option GoError :=
  let r := prv.Sign (env.hashCRS block l.hashCRS)
  (l, { block with CRSSignature := r.1 }, r.2)

/-- The method `processBlock`: the selector after the call and the returned
error (`none` is nil). -/
def processBlock {n : Nat} (env : Collaborators n) (l : leaderSelector n)
    (block : Block n) : leaderSelector n × Option GoError :=
  let r := env.verifyCRSSignature block l.hashCRS l.sigToPub
  match r.2 with
  | some err => (l, some err)
  | none =>
    if !r.1 then
      (l, some GoError.ErrIncorrectCRSSignature)
    else
      let dist := distance env l block.CRSSignature
      if Cmp l.minCRSBlock dist = 1 then
        ({ l with minCRSBlock := dist, minBlockHash := block.Hash }, none)
      else
        (l, none)

/-! ## Sequences of calls -/

/-- The blocks are handed to `processBlock` one after the other; returned
errors are dropped, as a caller that goes on with the next block does. -/
def processBlocks {n : Nat} (env : Collaborators n) (l : leaderSelector n)
    (blocks : List (Block n)) : leaderSelector n :=
  blocks.foldl (fun s b => (processBlock env s b).1) l

/-- A call that changes a selector. -/
inductive Call (n : Nat) where
  | processBlock (block : Block n)
  | restart

/-- The selector after one call. -/
def Call.apply {n : Nat} (env : Collaborators n) (l : leaderSelector n) :
    Call n → leaderSelector n
  | .processBlock b => (DexonCore.processBlock env l b).1
  | .restart => DexonCore.restart l

/-- The selector after a sequence of calls. -/
def runCalls {n : Nat} (env : Collaborators n) (l : leaderSelector n)
    (calls : List (Call n)) : leaderSelector n :=
  calls.foldl (Call.apply env) l

/-- Whether the CRS signature of the block verifies for this selector:
`verifyCRSSignature` answers true and returns no error. -/
def verifies {n : Nat} (env : Collaborators n) (l : leaderSelector n)
    (b : Block n) : Bool :=
  let r := env.verifyCRSSignature b l.hashCRS l.sigToPub
  r.1 && r.2.isNone

/-- Whether some call since construction or since the last `restart` was a
`processBlock` that returned no error.  The flag is carried along the run next
to the selector. -/
def validSinceReset {n : Nat} (env : Collaborators n) (l : leaderSelector n) :
    List (Call n) → Bool → Bool
  | [], seen => seen
  | .processBlock b :: rest, seen =>
    validSinceReset env (processBlock env l b).1 rest
      (seen || (processBlock env l b).2.isNone)
  | .restart :: rest, _ => validSinceReset env (DexonCore.restart l) rest false

/-- The blocks handed to `processBlock` since construction or since the last
`restart`, in the order of their calls; `acc` holds those seen before the
calls in the list. -/
def blocksSinceReset {n : Nat} : List (Call n) → List (Block n) → List (Block n)
  | [], acc => acc
  | .processBlock b :: rest, acc => blocksSinceReset rest (acc ++ [b])
  | .restart :: rest, _ => blocksSinceReset rest []

/-! ## A worked scenario

Concrete collaborators for the example of the specification, with hashes of 32
bytes.  The digest function is a stand-in that returns the first 32 bytes of
its input (zero padded), so that a signature can be chosen for any wanted
digest; the verifier accepts a block according to its `ProposerID`. -/

/-- Stand-in digest: the first 32 bytes of the input, zero padded. -/
def scenarioKeccak (buf : List Byte) : Hash 32 :=
  ⟨(buf ++ List.replicate 32 0).take 32, by simp⟩

/-- A 32-byte word holding a small number, big-endian. -/
def word (k : Byte) : List Byte := List.replicate 31 0 ++ [k]

/-- The hash whose bytes are `word k`. -/
def wordHash (k : Byte) : Hash 32 := ⟨word k, by simp [word]⟩

/-- The hash whose bytes are all 0xff. -/
def onesHash : Hash 32 := ⟨List.replicate 32 0xff, by simp⟩

/-- Stand-in verifier: proposer `[1]` signs correctly, proposer `[2]` makes the
primitive fail, proposer `[3]` makes the primitive fail while it answers true,
and every other proposer has a signature that does not match. -/
def scenarioVerify (b : Block 32) (_ : Hash 32) (_ : SigToPubFn 32) :
    Bool × Option GoError :=
  if b.ProposerID = [1] then (true, none)
  else if b.ProposerID = [2] then (false, some (GoError.external "malformed key"))
  else if b.ProposerID = [3] then (true, some (GoError.external "malformed key"))
  else (false, none)

/-- The collaborators of the scenario. -/
def scenario : Collaborators 32 :=
  { Keccak256Hash := scenarioKeccak
    hashCRS := fun _ crs => crs
    verifyCRSSignature := scenarioVerify }

/-- The resolver of the scenario: the signature is the public key. -/
def scenarioSigToPub : SigToPubFn 32 := fun _ sig => (sig, none)

/-- A block of the scenario with the given hash, signature digest and
proposer. -/
def scenarioBlock (hash digest proposer : Byte) : Block 32 :=
  { Hash := wordHash hash
    CRSSignature := word digest
    ProposerID := [proposer]
    Payload := [] }

/-- Round CRS of the scenario: the number 100. -/
def scenarioCRS : Hash 32 := wordHash 100

/-- The selector of the scenario, freshly constructed. -/
def scenarioSelector : leaderSelector 32 :=
  newLeaderSelector scenarioCRS scenarioSigToPub

/-- Block B1: hash 1, digest 50, so distance 50. -/
def B1 : Block 32 := scenarioBlock 1 50 1

/-- Block B2: hash 2, digest 90, so distance 10. -/
def B2 : Block 32 := scenarioBlock 2 90 1

/-- Block B3: hash 3, digest 110, so distance 10. -/
def B3 : Block 32 := scenarioBlock 3 110 1

/-- A block whose signature does not match. -/
def Bbad : Block 32 := scenarioBlock 4 100 0

/-- A block on which the verification primitive fails. -/
def Berr : Block 32 := scenarioBlock 5 100 2

/-- A block on which the primitive fails while answering true. -/
def BerrTrue : Block 32 := scenarioBlock 6 100 3

/-- A selector whose CRS is the zero hash, so that `numCRS` is 0. -/
def zeroCRSSelector : leaderSelector 32 :=
  newLeaderSelector (Hash.zero 32) scenarioSigToPub

/-- A correctly signed block whose signature digest is all ones: its distance
from a zero CRS is `maxHash`. -/
def Bfar (hash : Byte) : Block 32 :=
  { Hash := wordHash hash
    CRSSignature := List.replicate 32 0xff
    ProposerID := [1]
    Payload := [] }

/-- A correctly signed block whose `Hash` field is the zero hash and whose
signature is at distance 50 from the CRS of the scenario. -/
def BzeroHashFar : Block 32 :=
  { Hash := Hash.zero 32
    CRSSignature := word 50
    ProposerID := [1]
    Payload := [] }

/-- A correctly signed block whose `Hash` field is the zero hash. -/
def BzeroHash : Block 32 :=
  { Hash := Hash.zero 32
    CRSSignature := word 90
    ProposerID := [1]
    Payload := [] }

/-! ## Signing and verifying

The helper `verifyCRSSignature` is defined in a file that is not embedded
here.  For the round trip of `prepareBlock` and `processBlock` it is modelled
after the description in the specification. -/

/-- Modelled from the spec: the helper `verifyCRSSignature`.  It recomputes the
message with `hashCRS` from the block and the CRS, recovers the public key of
the signer from the CRS signature of the block through `sigToPub`, and accepts
when the recovered key is the key of the proposer of the block.  An error of
the recovery is handed back as it is.  The argument `nodeID` turns a public
key into the identity of a proposer. -/
def verifyCRSSignatureModel {n : Nat} (hashCRS : Block n → Hash n → Hash n)
    (nodeID : PublicKey → List Byte) (block : Block n) (crs : Hash n)
    (sigToPub : SigToPubFn n) : Bool × Option GoError :=
  let hash := hashCRS block crs
  let r := sigToPub hash block.CRSSignature
  match r.2 with
  | some err => (false, some err)
  | none => if block.ProposerID = nodeID r.1 then (true, none) else (false, none)

/-- A toy signature scheme for the round trip: the signature of a message under
the key `k` is `k` followed by the bytes of the message. -/
def toySign (k : Byte) : PrivateKey 32 :=
  { Sign := fun m => (k :: m.bytes, none) }

/-- A private key whose `Sign` always fails and hands back an incomplete
signature. -/
def brokenKey : PrivateKey 32 :=
  { Sign := fun _ => ([0], some (GoError.external "no entropy")) }

/-- Recovery for the toy scheme: a signature is valid for a message when its
tail is the message, and then its first byte is the public key. -/
def toySigToPub : SigToPubFn 32 := fun m sig =>
  match sig with
  | k :: rest =>
    if rest = m.bytes then ([k], none)
    else ([], some (GoError.external "invalid signature"))
  | [] => ([], some (GoError.external "invalid signature"))

/-- Collaborators for the round trip: the message is the CRS followed by the
payload of the block, digested by the stand-in digest, and the verifier is the
modelled one with the identity as `nodeID`. -/
def signingScenario : Collaborators 32 :=
  { Keccak256Hash := scenarioKeccak
    hashCRS := fun b crs => scenarioKeccak (b.Payload ++ crs.bytes)
    verifyCRSSignature :=
      verifyCRSSignatureModel (fun b crs => scenarioKeccak (b.Payload ++ crs.bytes)) id }

/-- A selector of the round trip scenario. -/
def signingSelector : leaderSelector 32 :=
  newLeaderSelector scenarioCRS toySigToPub

/-- A block proposed by the owner of key 7, not yet signed. -/
def unsignedBlock : Block 32 :=
  { Hash := wordHash 9
    CRSSignature := []
    ProposerID := [7]
    Payload := [1, 2, 3] }

/-- Whether the digest of a signature sits at the far end from the CRS: the CRS
reads as 0 and the digest as `maxHash`, or the CRS reads as `maxHash` and the
digest as 0.  A signature with this property would be a preimage under
`crypto.Keccak256Hash` of the all-ones or of the all-zero digest. -/
def extremeDigest {n : Nat} (env : Collaborators n) (crs : Hash n)
    (sig : Signature) : Bool :=
  (decide (SetBytes crs.bytes = 0) &&
      decide (SetBytes (env.Keccak256Hash sig).bytes = maxHash n)) ||
    (decide (SetBytes crs.bytes = maxHash n) &&
      decide (SetBytes (env.Keccak256Hash sig).bytes = 0))

/-! ## Facts about the big-integer helpers -/

theorem SetBytes_foldl_from (buf : List Byte) (a : Int) :
    buf.foldl (fun acc b => acc * 256 + (b.val : Int)) a
      = a * 256 ^ buf.length + SetBytes buf := by
  induction buf generalizing a with
  | nil => simp [SetBytes]
  | cons b rest ih =>
    have h1 := ih (a * 256 + (b.val : Int))
    have h2 := ih (0 * 256 + (b.val : Int))
    simp only [SetBytes, List.foldl_cons, List.length_cons] at h1 h2 ⊢
    rw [h1, h2]
    ring

theorem SetBytes_cons (b : Byte) (rest : List Byte) :
    SetBytes (b :: rest) = (b.val : Int) * 256 ^ rest.length + SetBytes rest := by
  have h := SetBytes_foldl_from rest (0 * 256 + (b.val : Int))
  simp only [SetBytes, List.foldl_cons] at h ⊢
  rw [h]
  ring

theorem SetBytes_nonneg (buf : List Byte) : 0 ≤ SetBytes buf := by
  induction buf with
  | nil => simp [SetBytes]
  | cons b rest ih =>
    rw [SetBytes_cons]
    positivity

theorem SetBytes_lt (buf : List Byte) : SetBytes buf < 256 ^ buf.length := by
  induction buf with
  | nil => simp [SetBytes]
  | cons b rest ih =>
    rw [SetBytes_cons, List.length_cons, pow_succ]
    have hb : (b.val : Int) ≤ 255 := by
      have := b.isLt
      omega
    have hp : (0 : Int) < 256 ^ rest.length := by positivity
    nlinarith

theorem SetBytes_inj : ∀ (xs ys : List Byte), xs.length = ys.length →
    SetBytes xs = SetBytes ys → xs = ys
  | [], [], _, _ => rfl
  | [], _ :: _, h, _ => by simp at h
  | _ :: _, [], h, _ => by simp at h
  | x :: xs, y :: ys, h, e => by
    have hl : xs.length = ys.length := by simpa using h
    rw [SetBytes_cons, SetBytes_cons, hl] at e
    have hx := SetBytes_lt xs
    have hy := SetBytes_lt ys
    have hx0 := SetBytes_nonneg xs
    have hy0 := SetBytes_nonneg ys
    rw [hl] at hx
    have hp : (0 : Int) < 256 ^ ys.length := by positivity
    have hxy : (x.val : Int) = (y.val : Int) := by
      rcases lt_trichotomy (x.val : Int) (y.val : Int) with hlt | heq | hgt
      · have : (x.val : Int) + 1 ≤ (y.val : Int) := hlt
        nlinarith
      · exact heq
      · have : (y.val : Int) + 1 ≤ (x.val : Int) := hgt
        nlinarith
    have hrest : SetBytes xs = SetBytes ys := by
      rw [hxy] at e
      linarith
    have hv : x = y := Fin.ext (by exact_mod_cast hxy)
    rw [hv, SetBytes_inj xs ys hl hrest]

theorem maxHash_eq_pow (n : Nat) : maxHash n = 256 ^ n - 1 := by
  unfold maxHash
  induction n with
  | zero => simp [SetBytes]
  | succ k ih =>
    rw [List.replicate_succ, List.map_cons, SetBytes_cons, ih]
    simp only [List.length_map, List.length_replicate]
    have : ((0xff : Byte).val : Int) = 255 := by decide
    rw [this, pow_succ]
    ring

theorem maxHash_eq_two_pow (n : Nat) : maxHash n = 2 ^ (8 * n) - 1 := by
  rw [maxHash_eq_pow, pow_mul]
  norm_num

theorem SetBytes_hash_le_maxHash {n : Nat} (h : Hash n) :
    SetBytes h.bytes ≤ maxHash n := by
  have := SetBytes_lt h.bytes
  rw [h.size] at this
  rw [maxHash_eq_pow]
  omega

theorem Hash.eq_of_bytes {n : Nat} (a b : Hash n) (h : a.bytes = b.bytes) :
    a = b := by
  cases a
  cases b
  simp_all

/-! ## One call of processBlock -/

theorem Cmp_eq_one_iff (x y : Int) : Cmp x y = 1 ↔ y < x := by
  unfold Cmp
  split_ifs with h1 h2
  · simp; omega
  · simp; omega
  · simp; omega

theorem processBlock_fst {n : Nat} (env : Collaborators n) (s : leaderSelector n)
    (b : Block n) :
    (processBlock env s b).1 =
      if verifies env s b = true ∧ distance env s b.CRSSignature < s.minCRSBlock then
        { s with minCRSBlock := distance env s b.CRSSignature, minBlockHash := b.Hash }
      else s := by
  unfold processBlock verifies
  rcases hr : env.verifyCRSSignature b s.hashCRS s.sigToPub with ⟨ok, err⟩
  cases err with
  | some e => simp
  | none =>
    cases ok with
    | false => simp
    | true =>
      by_cases hc : distance env s b.CRSSignature < s.minCRSBlock
      · simp [Cmp_eq_one_iff, hc]
      · simp [Cmp_eq_one_iff, hc]

theorem processBlock_snd {n : Nat} (env : Collaborators n) (s : leaderSelector n)
    (b : Block n) :
    (processBlock env s b).2 =
      match (env.verifyCRSSignature b s.hashCRS s.sigToPub).2 with
      | some e => some e
      | none =>
        if (env.verifyCRSSignature b s.hashCRS s.sigToPub).1 = true then none
        else some GoError.ErrIncorrectCRSSignature := by
  unfold processBlock
  rcases hr : env.verifyCRSSignature b s.hashCRS s.sigToPub with ⟨ok, err⟩
  cases err with
  | some e => simp
  | none =>
    cases ok with
    | false => simp
    | true =>
      by_cases hc : Cmp s.minCRSBlock (distance env s b.CRSSignature) = 1
      · simp [hc]
      · simp [hc]

/-! ## Frame facts: what a call leaves alone -/

theorem processBlock_hashCRS {n : Nat} (env : Collaborators n) (s : leaderSelector n)
    (b : Block n) : (processBlock env s b).1.hashCRS = s.hashCRS := by
  rw [processBlock_fst]
  split_ifs <;> rfl

theorem processBlock_numCRS {n : Nat} (env : Collaborators n) (s : leaderSelector n)
    (b : Block n) : (processBlock env s b).1.numCRS = s.numCRS := by
  rw [processBlock_fst]
  split_ifs <;> rfl

theorem processBlock_sigToPub {n : Nat} (env : Collaborators n) (s : leaderSelector n)
    (b : Block n) : (processBlock env s b).1.sigToPub = s.sigToPub := by
  rw [processBlock_fst]
  split_ifs <;> rfl

theorem verifies_congr {n : Nat} (env : Collaborators n) (s t : leaderSelector n)
    (h1 : s.hashCRS = t.hashCRS) (h2 : s.sigToPub = t.sigToPub) (b : Block n) :
    verifies env s b = verifies env t b := by
  unfold verifies
  rw [h1, h2]

theorem distance_congr {n : Nat} (env : Collaborators n) (s t : leaderSelector n)
    (h : s.numCRS = t.numCRS) (sig : Signature) :
    distance env s sig = distance env t sig := by
  unfold distance
  rw [h]

theorem processBlock_isNone {n : Nat} (env : Collaborators n) (s : leaderSelector n)
    (b : Block n) : (processBlock env s b).2.isNone = verifies env s b := by
  rw [processBlock_snd]
  unfold verifies
  rcases env.verifyCRSSignature b s.hashCRS s.sigToPub with ⟨ok, err⟩
  cases err <;> cases ok <;> simp

theorem processBlocks_nil {n : Nat} (env : Collaborators n) (s : leaderSelector n) :
    processBlocks env s [] = s := rfl

theorem processBlocks_cons {n : Nat} (env : Collaborators n) (s : leaderSelector n)
    (b : Block n) (rest : List (Block n)) :
    processBlocks env s (b :: rest) = processBlocks env (processBlock env s b).1 rest := rfl

theorem processBlocks_append {n : Nat} (env : Collaborators n) (s : leaderSelector n)
    (xs ys : List (Block n)) :
    processBlocks env s (xs ++ ys) = processBlocks env (processBlocks env s xs) ys := by
  simp [processBlocks, List.foldl_append]

theorem processBlocks_frame {n : Nat} (env : Collaborators n) (bs : List (Block n)) :
    ∀ s : leaderSelector n,
      (processBlocks env s bs).hashCRS = s.hashCRS ∧
      (processBlocks env s bs).numCRS = s.numCRS ∧
      (processBlocks env s bs).sigToPub = s.sigToPub := by
  induction bs with
  | nil => intro s; exact ⟨rfl, rfl, rfl⟩
  | cons b rest ih =>
    intro s
    rw [processBlocks_cons]
    obtain ⟨h1, h2, h3⟩ := ih (processBlock env s b).1
    exact ⟨h1.trans (processBlock_hashCRS env s b), h2.trans (processBlock_numCRS env s b),
      h3.trans (processBlock_sigToPub env s b)⟩

/-! ## Bounds on the distance -/

theorem Abs_eq_abs (x : Int) : Abs x = |x| := by
  unfold Abs
  exact Int.natCast_natAbs x

theorem distance_eq_abs {n : Nat} (env : Collaborators n) (s : leaderSelector n)
    (sig : Signature) :
    distance env s sig = |s.numCRS - SetBytes (env.Keccak256Hash sig).bytes| := by
  unfold distance
  exact Abs_eq_abs _

theorem distance_nonneg {n : Nat} (env : Collaborators n) (s : leaderSelector n)
    (sig : Signature) : 0 ≤ distance env s sig := by
  rw [distance_eq_abs]
  exact abs_nonneg _

theorem distance_le_maxHash {n : Nat} (env : Collaborators n) (s : leaderSelector n)
    (sig : Signature) (h0 : 0 ≤ s.numCRS) (h1 : s.numCRS ≤ maxHash n) :
    distance env s sig ≤ maxHash n := by
  rw [distance_eq_abs, abs_le]
  have hd0 := SetBytes_nonneg (env.Keccak256Hash sig).bytes
  have hd1 := SetBytes_hash_le_maxHash (env.Keccak256Hash sig)
  constructor <;> linarith

/-! ## The running minimum -/

theorem maxHash_nonneg (n : Nat) : 0 ≤ maxHash n := by
  rw [maxHash_eq_pow]
  have : (0 : Int) < 256 ^ n := by positivity
  omega

theorem processBlock_step {n : Nat} (env : Collaborators n) (s : leaderSelector n)
    (b : Block n) :
    (verifies env s b = true ∧ distance env s b.CRSSignature < s.minCRSBlock ∧
      (processBlock env s b).1.minCRSBlock = distance env s b.CRSSignature ∧
      (processBlock env s b).1.minBlockHash = b.Hash) ∨
    (¬ (verifies env s b = true ∧ distance env s b.CRSSignature < s.minCRSBlock) ∧
      (processBlock env s b).1 = s) := by
  rw [processBlock_fst]
  by_cases h : verifies env s b = true ∧ distance env s b.CRSSignature < s.minCRSBlock
  · left
    rw [if_pos h]
    exact ⟨h.1, h.2, rfl, rfl⟩
  · right
    rw [if_neg h]
    exact ⟨h, rfl⟩

theorem processBlock_minCRSBlock_le {n : Nat} (env : Collaborators n)
    (s : leaderSelector n) (b : Block n) :
    (processBlock env s b).1.minCRSBlock ≤ s.minCRSBlock := by
  rcases processBlock_step env s b with ⟨_, hlt, hm, _⟩ | ⟨_, he⟩
  · rw [hm]
    exact le_of_lt hlt
  · rw [he]

theorem processBlocks_minCRSBlock_le {n : Nat} (env : Collaborators n)
    (bs : List (Block n)) :
    ∀ s : leaderSelector n, (processBlocks env s bs).minCRSBlock ≤ s.minCRSBlock := by
  induction bs with
  | nil => intro s; exact le_refl _
  | cons b rest ih =>
    intro s
    rw [processBlocks_cons]
    exact le_trans (ih _) (processBlock_minCRSBlock_le env s b)

/-- After a run of processBlock calls the recorded distance is a lower bound of
the distances of the blocks that verified, and either nothing changed or the
recorded hash is that of the earliest verifying block at the recorded
distance. -/
theorem processBlocks_best {n : Nat} (env : Collaborators n) (l : leaderSelector n)
    (bs : List (Block n)) :
    ∀ s : leaderSelector n, s.hashCRS = l.hashCRS → s.numCRS = l.numCRS →
      s.sigToPub = l.sigToPub →
      (∀ b ∈ bs, verifies env l b = true →
        (processBlocks env s bs).minCRSBlock ≤ distance env l b.CRSSignature) ∧
      (((processBlocks env s bs).minCRSBlock = s.minCRSBlock ∧
          (processBlocks env s bs).minBlockHash = s.minBlockHash) ∨
        ((processBlocks env s bs).minCRSBlock < s.minCRSBlock ∧
          ∃ b, bs.find? (fun b => verifies env l b &&
                decide (distance env l b.CRSSignature
                  = (processBlocks env s bs).minCRSBlock)) = some b ∧
            (processBlocks env s bs).minBlockHash = b.Hash)) := by
  induction bs with
  | nil =>
    intro s _ _ _
    exact ⟨fun b hb => absurd hb (List.not_mem_nil b), Or.inl ⟨rfl, rfl⟩⟩
  | cons b rest ih =>
    intro s h1 h2 h3
    rw [processBlocks_cons]
    have hv : verifies env s b = verifies env l b := verifies_congr env s l h1 h3 b
    have hd : distance env s b.CRSSignature = distance env l b.CRSSignature :=
      distance_congr env s l h2 _
    obtain ⟨ihA, ihB⟩ := ih (processBlock env s b).1
      ((processBlock_hashCRS env s b).trans h1) ((processBlock_numCRS env s b).trans h2)
      ((processBlock_sigToPub env s b).trans h3)
    have hfin := processBlocks_minCRSBlock_le env rest (processBlock env s b).1
    have hstep := processBlock_step env s b
    rw [hv, hd] at hstep
    -- the state after b is at most the distance of b when b verifies
    have hb_le : verifies env l b = true →
        (processBlock env s b).1.minCRSBlock ≤ distance env l b.CRSSignature := by
      intro hvb
      rcases hstep with ⟨_, _, hm, _⟩ | ⟨hn, he⟩
      · rw [hm]
      · rw [he]
        by_contra hcon
        exact hn ⟨hvb, not_le.mp hcon⟩
    constructor
    · intro x hx hvx
      rcases List.mem_cons.mp hx with rfl | hmem
      · exact le_trans hfin (hb_le hvx)
      · exact ihA x hmem hvx
    · rcases ihB with ⟨em, eh⟩ | ⟨hlt, x, hfind, hx⟩
      · rcases hstep with ⟨hvb, hlt, hm, hh⟩ | ⟨_, he⟩
        · right
          refine ⟨?_, b, ?_, ?_⟩
          · rw [em, hm]
            exact hlt
          · rw [List.find?_cons_of_pos]
            simp [hvb, em, hm]
          · rw [eh, hh]
        · left
          rw [em, eh, he]
          exact ⟨rfl, rfl⟩
      · right
        refine ⟨lt_of_lt_of_le hlt (processBlock_minCRSBlock_le env s b), x, ?_, hx⟩
        rw [List.find?_cons_of_neg]
        · exact hfind
        · intro hp
          simp only [Bool.and_eq_true, decide_eq_true_eq] at hp
          have := hb_le hp.1
          rw [hp.2] at this
          exact absurd hlt (not_lt.mpr this)

theorem processBlocks_filter {n : Nat} (env : Collaborators n) (l : leaderSelector n)
    (bs : List (Block n)) :
    ∀ s : leaderSelector n, s.hashCRS = l.hashCRS → s.sigToPub = l.sigToPub →
      processBlocks env s (bs.filter (verifies env l)) = processBlocks env s bs := by
  induction bs with
  | nil => intro s _ _; rfl
  | cons b rest ih =>
    intro s h1 h3
    have hv : verifies env s b = verifies env l b := verifies_congr env s l h1 h3 b
    have hnext := ih (processBlock env s b).1
      ((processBlock_hashCRS env s b).trans h1) ((processBlock_sigToPub env s b).trans h3)
    by_cases hb : verifies env l b = true
    · rw [List.filter_cons_of_pos hb, processBlocks_cons, processBlocks_cons, hnext]
    · rw [List.filter_cons_of_neg hb, processBlocks_cons]
      have hs : (processBlock env s b).1 = s := by
        rcases processBlock_step env s b with ⟨hvb, _⟩ | ⟨_, he⟩
        · rw [hv] at hvb
          exact absurd hvb hb
        · exact he
      rw [hs] at hnext ⊢
      exact hnext

theorem processBlocks_foldl_min {n : Nat} (env : Collaborators n) (l : leaderSelector n)
    (bs : List (Block n)) :
    ∀ s : leaderSelector n, s.hashCRS = l.hashCRS → s.numCRS = l.numCRS →
      s.sigToPub = l.sigToPub →
      (processBlocks env s bs).minCRSBlock
        = ((bs.filter (verifies env l)).map (fun b => distance env l b.CRSSignature)).foldl
            min s.minCRSBlock := by
  induction bs with
  | nil => intro s _ _ _; rfl
  | cons b rest ih =>
    intro s h1 h2 h3
    have hv : verifies env s b = verifies env l b := verifies_congr env s l h1 h3 b
    have hd : distance env s b.CRSSignature = distance env l b.CRSSignature :=
      distance_congr env s l h2 _
    rw [processBlocks_cons, ih (processBlock env s b).1
      ((processBlock_hashCRS env s b).trans h1) ((processBlock_numCRS env s b).trans h2)
      ((processBlock_sigToPub env s b).trans h3)]
    have hstep := processBlock_step env s b
    rw [hv, hd] at hstep
    by_cases hb : verifies env l b = true
    · rw [List.filter_cons_of_pos hb, List.map_cons, List.foldl_cons]
      rcases hstep with ⟨_, hlt, hm, _⟩ | ⟨hn, he⟩
      · rw [hm, min_eq_right (le_of_lt hlt)]
      · rw [he, min_eq_left]
        by_contra hcon
        exact hn ⟨hb, not_le.mp hcon⟩
    · rw [List.filter_cons_of_neg hb]
      rcases hstep with ⟨hvb, _⟩ | ⟨_, he⟩
      · exact absurd hvb hb
      · rw [he]

/-! ## Runs that contain restarts -/

theorem restart_eq_of_frame {n : Nat} (s l : leaderSelector n)
    (h1 : s.hashCRS = l.hashCRS) (h2 : s.numCRS = l.numCRS) (h3 : s.sigToPub = l.sigToPub)
    (h4 : l.minCRSBlock = maxHash n) (h5 : l.minBlockHash = Hash.zero n) :
    restart s = l := by
  cases s
  cases l
  simp only [restart] at *
  simp [h1, h2, h3, h4, h5]

theorem runCalls_cons {n : Nat} (env : Collaborators n) (s : leaderSelector n)
    (c : Call n) (rest : List (Call n)) :
    runCalls env s (c :: rest) = runCalls env (Call.apply env s c) rest := rfl

theorem runCalls_eq_processBlocks {n : Nat} (env : Collaborators n) (l : leaderSelector n)
    (h4 : l.minCRSBlock = maxHash n) (h5 : l.minBlockHash = Hash.zero n)
    (calls : List (Call n)) :
    ∀ acc : List (Block n),
      runCalls env (processBlocks env l acc) calls
        = processBlocks env l (blocksSinceReset calls acc) := by
  induction calls with
  | nil => intro acc; rfl
  | cons c rest ih =>
    intro acc
    rw [runCalls_cons]
    cases c with
    | processBlock b =>
      have h : Call.apply env (processBlocks env l acc) (Call.processBlock b)
          = processBlocks env l (acc ++ [b]) := by
        rw [processBlocks_append]
        rfl
      rw [h, ih (acc ++ [b])]
      rfl
    | restart =>
      obtain ⟨f1, f2, f3⟩ := processBlocks_frame env acc l
      have h : Call.apply env (processBlocks env l acc) Call.restart
          = processBlocks env l [] := by
        show restart (processBlocks env l acc) = l
        exact restart_eq_of_frame _ l f1 f2 f3 h4 h5
      rw [h, ih []]
      rfl

theorem validSinceReset_eq_any {n : Nat} (env : Collaborators n) (l : leaderSelector n)
    (h4 : l.minCRSBlock = maxHash n) (h5 : l.minBlockHash = Hash.zero n)
    (calls : List (Call n)) :
    ∀ acc : List (Block n),
      validSinceReset env (processBlocks env l acc) calls (acc.any (verifies env l))
        = (blocksSinceReset calls acc).any (verifies env l) := by
  induction calls with
  | nil => intro acc; rfl
  | cons c rest ih =>
    intro acc
    obtain ⟨f1, _, f3⟩ := processBlocks_frame env acc l
    cases c with
    | processBlock b =>
      have hs : (processBlock env (processBlocks env l acc) b).1
          = processBlocks env l (acc ++ [b]) := by
        rw [processBlocks_append]
        rfl
      have hflag : (acc.any (verifies env l)
            || (processBlock env (processBlocks env l acc) b).2.isNone)
          = (acc ++ [b]).any (verifies env l) := by
        rw [processBlock_isNone, verifies_congr env _ l f1 f3 b]
        simp
      show validSinceReset env (processBlock env (processBlocks env l acc) b).1 rest
          (acc.any (verifies env l)
            || (processBlock env (processBlocks env l acc) b).2.isNone) = _
      rw [hs, hflag, ih (acc ++ [b])]
      rfl
    | restart =>
      obtain ⟨_, f2, _⟩ := processBlocks_frame env acc l
      have h : restart (processBlocks env l acc) = processBlocks env l [] :=
        restart_eq_of_frame _ l f1 f2 f3 h4 h5
      show validSinceReset env (restart (processBlocks env l acc)) rest false = _
      rw [h]
      exact ih []

/-! ## Further shared facts -/

theorem maxHash_pos {n : Nat} (hn : 0 < n) : 0 < maxHash n := by
  rw [maxHash_eq_pow]
  obtain ⟨k, rfl⟩ : ∃ k, n = k + 1 := ⟨n - 1, by omega⟩
  have hk : (0 : Int) < 256 ^ k := by positivity
  rw [pow_succ]
  omega

theorem runCalls_frame {n : Nat} (env : Collaborators n) (crs : Hash n)
    (sigToPub : SigToPubFn n) (calls : List (Call n)) :
    (runCalls env (newLeaderSelector crs sigToPub) calls).hashCRS = crs ∧
    (runCalls env (newLeaderSelector crs sigToPub) calls).numCRS = SetBytes crs.bytes ∧
    (runCalls env (newLeaderSelector crs sigToPub) calls).sigToPub = sigToPub := by
  have hrun := runCalls_eq_processBlocks env (newLeaderSelector crs sigToPub) rfl rfl calls []
  rw [processBlocks_nil] at hrun
  rw [hrun]
  exact processBlocks_frame env (blocksSinceReset calls []) (newLeaderSelector crs sigToPub)

theorem probability_eq {n : Nat} (env : Collaborators n) (l : leaderSelector n)
    (sig : Signature) (hn : 0 < n) :
    probability env l sig
      = some (1 - (distance env l sig : ℚ) / (maxHash n : ℚ)) := by
  unfold probability
  have h := maxHash_pos hn
  simp only [if_neg (ne_of_gt h)]

theorem abs_sub_eq_top_iff (a b m : Int) (ha0 : 0 ≤ a) (ha1 : a ≤ m) (hb0 : 0 ≤ b)
    (hb1 : b ≤ m) : |a - b| = m ↔ (a = 0 ∧ b = m) ∨ (a = m ∧ b = 0) := by
  have hm : 0 ≤ m := le_trans ha0 ha1
  rw [abs_eq hm]
  constructor
  · rintro (h | h)
    · right; constructor <;> omega
    · left; constructor <;> omega
  · rintro (⟨h1, h2⟩ | ⟨h1, h2⟩)
    · right; omega
    · left; omega

theorem extremeDigest_iff {n : Nat} (env : Collaborators n) (crs : Hash n)
    (l : leaderSelector n) (hnum : l.numCRS = SetBytes crs.bytes) (sig : Signature) :
    extremeDigest env crs sig = true ↔ distance env l sig = maxHash n := by
  rw [distance_eq_abs, hnum,
    abs_sub_eq_top_iff _ _ _ (SetBytes_nonneg crs.bytes) (SetBytes_hash_le_maxHash crs)
      (SetBytes_nonneg _) (SetBytes_hash_le_maxHash _)]
  unfold extremeDigest
  simp only [Bool.or_eq_true, Bool.and_eq_true, decide_eq_true_eq]

theorem distance_lt_of_not_extreme {n : Nat} (env : Collaborators n) (crs : Hash n)
    (l : leaderSelector n) (hnum : l.numCRS = SetBytes crs.bytes) (sig : Signature)
    (h : extremeDigest env crs sig = false) : distance env l sig < maxHash n := by
  have hle : distance env l sig ≤ maxHash n := by
    apply distance_le_maxHash
    · rw [hnum]; exact SetBytes_nonneg crs.bytes
    · rw [hnum]; exact SetBytes_hash_le_maxHash crs
  rcases lt_or_eq_of_le hle with hlt | heq
  · exact hlt
  · have := (extremeDigest_iff env crs l hnum sig).mpr heq
    rw [h] at this
    exact Bool.noConfusion this

theorem fresh_eq_newLeaderSelector {n : Nat} (env : Collaborators n) (crs : Hash n)
    (sigToPub : SigToPubFn n) (calls : List (Call n)) (l0 : leaderSelector n)
    (hfresh : l0 = newLeaderSelector crs sigToPub ∨
      l0 = restart (runCalls env (newLeaderSelector crs sigToPub) calls)) :
    l0 = newLeaderSelector crs sigToPub := by
  rcases hfresh with h | h
  · exact h
  · obtain ⟨f1, f2, f3⟩ := runCalls_frame env crs sigToPub calls
    rw [h]
    exact restart_eq_of_frame _ (newLeaderSelector crs sigToPub) f1 f2 f3 rfl rfl

/-! ## Claims about one call of processBlock -/

/-- Claim C2: when the CRS signature of the block verifies (the verifier
answers true with no error), processBlock returns no error; with d the distance
of the block signature, if d is strictly below bestDistance the new state has
bestDistance = d and bestBlockHash = block.Hash, otherwise both are unchanged;
hashCRS, numCRS and sigToPub are unchanged in both cases. -/
theorem processBlock_of_verified {n : Nat} (env : Collaborators n)
    (l : leaderSelector n) (block : Block n)
    (hv : env.verifyCRSSignature block l.hashCRS l.sigToPub = (true, none)) :
    (processBlock env l block).2 = none ∧
    (distance env l block.CRSSignature < l.minCRSBlock →
      (processBlock env l block).1.minCRSBlock = distance env l block.CRSSignature ∧
      (processBlock env l block).1.minBlockHash = block.Hash) ∧
    (l.minCRSBlock ≤ distance env l block.CRSSignature →
      (processBlock env l block).1.minCRSBlock = l.minCRSBlock ∧
      (processBlock env l block).1.minBlockHash = l.minBlockHash) ∧
    (processBlock env l block).1.hashCRS = l.hashCRS ∧
    (processBlock env l block).1.numCRS = l.numCRS ∧
    (processBlock env l block).1.sigToPub = l.sigToPub := by
  have hver : verifies env l block = true := by simp [verifies, hv]
  refine ⟨?_, ?_, ?_, ?_, ?_, ?_⟩
  · rw [processBlock_snd, hv]
    simp
  · intro hlt
    rw [processBlock_fst, if_pos ⟨hver, hlt⟩]
    exact ⟨rfl, rfl⟩
  · intro hge
    rw [processBlock_fst, if_neg (fun h => absurd h.2 (not_lt.mpr hge))]
    exact ⟨rfl, rfl⟩
  · rw [processBlock_fst]
    split_ifs <;> rfl
  · rw [processBlock_fst]
    split_ifs <;> rfl
  · rw [processBlock_fst]
    split_ifs <;> rfl

/-- Witness for C2 on block B2 of the scenario, processed after B1: the
signature verifies, no error is returned, and B2 (distance 10, below 50)
becomes the recorded best block. -/
theorem processBlock_of_verified_witness :
    scenario.verifyCRSSignature B2 (processBlocks scenario scenarioSelector [B1]).hashCRS
        (processBlocks scenario scenarioSelector [B1]).sigToPub = (true, none) ∧
    distance scenario (processBlocks scenario scenarioSelector [B1]) B2.CRSSignature
        < (processBlocks scenario scenarioSelector [B1]).minCRSBlock ∧
    (processBlock scenario (processBlocks scenario scenarioSelector [B1]) B2).2 = none ∧
    (processBlock scenario (processBlocks scenario scenarioSelector [B1]) B2).1.minCRSBlock = 10 ∧
    (processBlock scenario (processBlocks scenario scenarioSelector [B1]) B2).1.minBlockHash
        = B2.Hash :=
  have h := processBlock_of_verified scenario
    (processBlocks scenario scenarioSelector [B1]) B2 (by decide)
  ⟨by decide, by decide, h.1, (h.2.1 (by decide)).1.trans (by decide), (h.2.1 (by decide)).2⟩

/-- Claim C3: when verification cleanly fails (the verifier answers false with
no error), processBlock returns exactly ErrIncorrectCRSSignature and the
selector after the call is the selector before it, field by field. -/
theorem processBlock_of_rejected {n : Nat} (env : Collaborators n)
    (l : leaderSelector n) (block : Block n)
    (hv : env.verifyCRSSignature block l.hashCRS l.sigToPub = (false, none)) :
    processBlock env l block = (l, some GoError.ErrIncorrectCRSSignature) := by
  unfold processBlock
  simp [hv]

/-- Witness for C3 on the badly signed block of the scenario, processed after
B1 and B2. -/
theorem processBlock_of_rejected_witness :
    scenario.verifyCRSSignature Bbad
        (processBlocks scenario scenarioSelector [B1, B2]).hashCRS
        (processBlocks scenario scenarioSelector [B1, B2]).sigToPub = (false, none) ∧
    processBlock scenario (processBlocks scenario scenarioSelector [B1, B2]) Bbad
      = (processBlocks scenario scenarioSelector [B1, B2],
          some GoError.ErrIncorrectCRSSignature) :=
  ⟨by decide,
    processBlock_of_rejected scenario (processBlocks scenario scenarioSelector [B1, B2])
      Bbad (by decide)⟩

/-- Claim C4: when the verification primitive returns an error e, whatever
boolean comes with it, processBlock returns that same e (so not nil, and not
ErrIncorrectCRSSignature unless e is that very value) and leaves the selector
unchanged; and processBlock returns an error exactly when verification
returned an error or answered false. -/
theorem processBlock_of_failure {n : Nat} (env : Collaborators n)
    (l : leaderSelector n) (block : Block n) :
    (∀ e : GoError, (env.verifyCRSSignature block l.hashCRS l.sigToPub).2 = some e →
      processBlock env l block = (l, some e) ∧
      (processBlock env l block).2 ≠ none ∧
      (e ≠ GoError.ErrIncorrectCRSSignature →
        (processBlock env l block).2 ≠ some GoError.ErrIncorrectCRSSignature)) ∧
    ((processBlock env l block).2 ≠ none ↔
      ((env.verifyCRSSignature block l.hashCRS l.sigToPub).2 ≠ none ∨
        (env.verifyCRSSignature block l.hashCRS l.sigToPub).1 = false)) := by
  constructor
  · intro e he
    have h : processBlock env l block = (l, some e) := by
      unfold processBlock
      simp [he]
    rw [h]
    refine ⟨rfl, by simp, ?_⟩
    intro hne heq
    exact hne (by simpa using heq)
  · rw [processBlock_snd]
    rcases env.verifyCRSSignature block l.hashCRS l.sigToPub with ⟨ok, err⟩
    cases err <;> cases ok <;> simp

/-- Witness for C4 on the two failing blocks of the scenario: the error of the
primitive comes back unchanged whether the boolean next to it is false or
true, and the selector is the same afterwards. -/
theorem processBlock_of_failure_witness :
    (scenario.verifyCRSSignature Berr scenarioSelector.hashCRS scenarioSelector.sigToPub).2
      = some (GoError.external "malformed key") ∧
    processBlock scenario scenarioSelector Berr
      = (scenarioSelector, some (GoError.external "malformed key")) ∧
    (scenario.verifyCRSSignature BerrTrue scenarioSelector.hashCRS
        scenarioSelector.sigToPub) = (true, some (GoError.external "malformed key")) ∧
    processBlock scenario scenarioSelector BerrTrue
      = (scenarioSelector, some (GoError.external "malformed key")) :=
  ⟨by decide,
    ((processBlock_of_failure scenario scenarioSelector Berr).1 _ (by decide)).1,
    by decide,
    ((processBlock_of_failure scenario scenarioSelector BerrTrue).1 _ (by decide)).1⟩

/-! ## The distance metric -/

/-- Claim C10: for a selector built by newLeaderSelector and any signature,
distance is the absolute value of numCRS minus N in exact integer arithmetic,
where N is the digest of the signature bytes and numCRS the CRS hash, both
read as unsigned big-endian integers; it lies between 0 and MaxHash, and it is
0 exactly when the digest equals the CRS. -/
theorem distance_spec {n : Nat} (env : Collaborators n) (crs : Hash n)
    (sigToPub : SigToPubFn n) (sig : Signature) :
    (newLeaderSelector crs sigToPub).numCRS = SetBytes crs.bytes ∧
    distance env (newLeaderSelector crs sigToPub) sig
      = |SetBytes crs.bytes - SetBytes (env.Keccak256Hash sig).bytes| ∧
    0 ≤ distance env (newLeaderSelector crs sigToPub) sig ∧
    distance env (newLeaderSelector crs sigToPub) sig ≤ maxHash n ∧
    (distance env (newLeaderSelector crs sigToPub) sig = 0 ↔ env.Keccak256Hash sig = crs) := by
  refine ⟨rfl, distance_eq_abs env _ sig, distance_nonneg env _ sig, ?_, ?_⟩
  · exact distance_le_maxHash env _ sig (SetBytes_nonneg crs.bytes)
      (SetBytes_hash_le_maxHash crs)
  · rw [distance_eq_abs, abs_eq_zero, sub_eq_zero]
    show SetBytes crs.bytes = SetBytes (env.Keccak256Hash sig).bytes ↔ _
    constructor
    · intro h
      apply Hash.eq_of_bytes
      exact (SetBytes_inj crs.bytes (env.Keccak256Hash sig).bytes
        (crs.size.trans (env.Keccak256Hash sig).size.symm) h).symm
    · intro h
      rw [h]

/-! ## Selection of the leader over a sequence of blocks -/

/-- Claim C1: starting from a freshly constructed or just restarted selector
and processing a finite sequence of blocks in order, the final bestDistance is
the minimum of MaxHash and the distances of the blocks that verified (it is at
most MaxHash, at most every such distance, and either MaxHash or attained by
a verifying block); blocks that failed verification have no influence; and
when that minimum is strictly below MaxHash, leaderBlockHash is the Hash of the
earliest verifying block whose distance equals the minimum. -/
theorem leader_is_earliest_minimum {n : Nat} (env : Collaborators n)
    (l0 : leaderSelector n) (blocks : List (Block n))
    (hfresh : (∃ crs sigToPub, l0 = newLeaderSelector crs sigToPub) ∨
      (∃ l, l0 = restart l)) :
    (processBlocks env l0 blocks).minCRSBlock
      = ((blocks.filter (verifies env l0)).map
          (fun b => distance env l0 b.CRSSignature)).foldl min (maxHash n) ∧
    (processBlocks env l0 blocks).minCRSBlock ≤ maxHash n ∧
    (∀ b ∈ blocks, verifies env l0 b = true →
      (processBlocks env l0 blocks).minCRSBlock ≤ distance env l0 b.CRSSignature) ∧
    ((processBlocks env l0 blocks).minCRSBlock = maxHash n ∨
      ∃ b ∈ blocks, verifies env l0 b = true ∧
        distance env l0 b.CRSSignature = (processBlocks env l0 blocks).minCRSBlock) ∧
    processBlocks env l0 (blocks.filter (verifies env l0)) = processBlocks env l0 blocks ∧
    ((processBlocks env l0 blocks).minCRSBlock < maxHash n →
      ∃ b, blocks.find? (fun b => verifies env l0 b &&
              decide (distance env l0 b.CRSSignature
                = (processBlocks env l0 blocks).minCRSBlock)) = some b ∧
        leaderBlockHash (processBlocks env l0 blocks) = b.Hash) := by
  have hmin : l0.minCRSBlock = maxHash n := by
    rcases hfresh with ⟨crs, f, rfl⟩ | ⟨l, rfl⟩ <;> rfl
  obtain ⟨hlow, hcase⟩ := processBlocks_best env l0 blocks l0 rfl rfl rfl
  have hle := processBlocks_minCRSBlock_le env blocks l0
  rw [hmin] at hle hcase
  refine ⟨?_, hle, hlow, ?_, processBlocks_filter env l0 blocks l0 rfl rfl, ?_⟩
  · rw [processBlocks_foldl_min env l0 blocks l0 rfl rfl rfl, hmin]
  · rcases hcase with ⟨em, _⟩ | ⟨_, b, hfind, _⟩
    · exact Or.inl em
    · right
      have hp := List.find?_some hfind
      simp only [Bool.and_eq_true, decide_eq_true_eq] at hp
      exact ⟨b, List.mem_of_find?_eq_some hfind, hp.1, hp.2⟩
  · intro hlt
    rcases hcase with ⟨em, _⟩ | ⟨_, b, hfind, hb⟩
    · exact absurd hlt (not_lt.mpr (le_of_eq em.symm))
    · exact ⟨b, hfind, hb⟩

/-- Witness for C1, the example of the specification: valid blocks B1, B2, B3
with distances 50, 10, 10 processed in this order by a fresh selector give
bestDistance 10 and leaderBlockHash equal to the hash of B2. -/
theorem leader_is_earliest_minimum_witness :
    (∃ crs sigToPub, scenarioSelector = newLeaderSelector crs sigToPub) ∧
    distance scenario scenarioSelector B1.CRSSignature = 50 ∧
    distance scenario scenarioSelector B2.CRSSignature = 10 ∧
    distance scenario scenarioSelector B3.CRSSignature = 10 ∧
    (processBlocks scenario scenarioSelector [B1, B2, B3]).minCRSBlock = 10 ∧
    leaderBlockHash (processBlocks scenario scenarioSelector [B1, B2, B3]) = B2.Hash := by
  have hfresh : (∃ crs sigToPub, scenarioSelector = newLeaderSelector crs sigToPub) ∨
      (∃ l, scenarioSelector = restart l) := Or.inl ⟨scenarioCRS, scenarioSigToPub, rfl⟩
  have h := leader_is_earliest_minimum scenario scenarioSelector [B1, B2, B3] hfresh
  have hm : (processBlocks scenario scenarioSelector [B1, B2, B3]).minCRSBlock = 10 :=
    h.1.trans (by decide)
  refine ⟨⟨scenarioCRS, scenarioSigToPub, rfl⟩, by decide, by decide, by decide, hm, ?_⟩
  obtain ⟨b, hfind, hb⟩ := h.2.2.2.2.2 (by rw [hm]; decide)
  have hB2 : [B1, B2, B3].find? (fun b => verifies scenario scenarioSelector b &&
      decide (distance scenario scenarioSelector b.CRSSignature
        = (processBlocks scenario scenarioSelector [B1, B2, B3]).minCRSBlock)) = some B2 := by
    decide
  rw [hB2] at hfind
  rw [hb, ← Option.some.inj hfind]

/-! ## Ties -/

/-- Claim C5: first-seen tie-break.  For a selector that is freshly constructed
or has just been restarted (in any state reached from newLeaderSelector) and
two verifying blocks A and B with the same signature distance, after
processBlock(A) followed by processBlock(B), leaderBlockHash is the hash of A;
and in any selector state a block whose distance equals the recorded
bestDistance leaves the selector as it was, so a later block at an equal
distance never overrides the earlier one.  The digest function is a
collaborator outside the embedded file; the first part assumes that the
signature of A is not a preimage of the extreme digest (all ones against a
zero CRS, or zero against an all-ones CRS). -/
theorem tie_break_first_seen {n : Nat} (env : Collaborators n) (crs : Hash n)
    (sigToPub : SigToPubFn n) (calls : List (Call n)) (l0 : leaderSelector n)
    (A B : Block n)
    (hfresh : l0 = newLeaderSelector crs sigToPub ∨
      l0 = restart (runCalls env (newLeaderSelector crs sigToPub) calls))
    (hA : verifies env l0 A = true) (hB : verifies env l0 B = true)
    (heq : distance env l0 A.CRSSignature = distance env l0 B.CRSSignature)
    (hdigest : extremeDigest env crs A.CRSSignature = false) :
    (processBlock env l0 A).2 = none ∧
    (processBlock env (processBlock env l0 A).1 B).2 = none ∧
    leaderBlockHash (processBlock env (processBlock env l0 A).1 B).1 = A.Hash ∧
    (processBlock env (processBlock env l0 A).1 B).1.minCRSBlock
      = distance env l0 A.CRSSignature ∧
    (∀ s : leaderSelector n, ∀ C : Block n,
      distance env s C.CRSSignature = s.minCRSBlock →
        (processBlock env s C).1 = s) := by
  have hl0 := fresh_eq_newLeaderSelector env crs sigToPub calls l0 hfresh
  have hmin : l0.minCRSBlock = maxHash n := by rw [hl0]; rfl
  have hlt : distance env l0 A.CRSSignature < maxHash n :=
    distance_lt_of_not_extreme env crs l0 (by rw [hl0]; rfl) _ hdigest
  have hlater : ∀ s : leaderSelector n, ∀ C : Block n,
      distance env s C.CRSSignature = s.minCRSBlock → (processBlock env s C).1 = s := by
    intro s C hC
    rcases processBlock_step env s C with ⟨_, h, _, _⟩ | ⟨_, he⟩
    · rw [hC] at h
      exact absurd h (lt_irrefl _)
    · exact he
  have hstepA : (processBlock env l0 A).1.minCRSBlock = distance env l0 A.CRSSignature ∧
      (processBlock env l0 A).1.minBlockHash = A.Hash := by
    rcases processBlock_step env l0 A with ⟨_, _, hm, hh⟩ | ⟨hn, _⟩
    · exact ⟨hm, hh⟩
    · exact absurd ⟨hA, hmin ▸ hlt⟩ hn
  have hdB : distance env (processBlock env l0 A).1 B.CRSSignature
      = (processBlock env l0 A).1.minCRSBlock := by
    rw [distance_congr env _ l0 (processBlock_numCRS env l0 A), hstepA.1, heq]
  have hnoneA : (processBlock env l0 A).2 = none := by
    have h := processBlock_isNone env l0 A
    rw [hA] at h
    exact Option.isNone_iff_eq_none.mp h
  have hnoneB : (processBlock env (processBlock env l0 A).1 B).2 = none := by
    have h := processBlock_isNone env (processBlock env l0 A).1 B
    rw [verifies_congr env _ l0 (processBlock_hashCRS env l0 A)
      (processBlock_sigToPub env l0 A) B, hB] at h
    exact Option.isNone_iff_eq_none.mp h
  rw [hlater _ B hdB]
  exact ⟨hnoneA, hnoneB, hstepA.2, hstepA.1, hlater⟩

/-- Witness for C5: blocks B2 and B3 of the scenario both verify at distance
10; processed in this order by a fresh selector, B2 stays the leader. -/
theorem tie_break_first_seen_witness :
    verifies scenario scenarioSelector B2 = true ∧
    verifies scenario scenarioSelector B3 = true ∧
    distance scenario scenarioSelector B2.CRSSignature
      = distance scenario scenarioSelector B3.CRSSignature ∧
    extremeDigest scenario scenarioCRS B2.CRSSignature = false ∧
    leaderBlockHash
        (processBlock scenario (processBlock scenario scenarioSelector B2).1 B3).1
      = B2.Hash :=
  ⟨by decide, by decide, by decide, by decide,
    (tie_break_first_seen scenario scenarioCRS scenarioSigToPub [] scenarioSelector B2 B3
      (Or.inl rfl) (by decide) (by decide) (by decide) (by decide)).2.2.1⟩

/-! ## Restart -/

/-- Claim C6: reset semantics.  In every selector state leaderBlockHash after
restart is the zero hash; and in every state reached from newLeaderSelector, a
block that verifies, processed immediately after restart, is accepted without
error and becomes the leader whatever was recorded before the restart:
leaderBlockHash is the hash of that block and bestDistance its distance.  The
digest function is a collaborator outside the embedded file; the second part
assumes that the signature of the block is not a preimage of the extreme digest
(all ones against a zero CRS, or zero against an all-ones CRS). -/
theorem restart_then_processBlock {n : Nat} (env : Collaborators n) (crs : Hash n)
    (sigToPub : SigToPubFn n) (calls : List (Call n)) :
    (∀ l : leaderSelector n, leaderBlockHash (restart l) = Hash.zero n) ∧
    (∀ block : Block n,
      verifies env (restart (runCalls env (newLeaderSelector crs sigToPub) calls)) block
        = true →
      extremeDigest env crs block.CRSSignature = false →
        (processBlock env (restart (runCalls env (newLeaderSelector crs sigToPub) calls))
          block).2 = none ∧
        leaderBlockHash (processBlock env
          (restart (runCalls env (newLeaderSelector crs sigToPub) calls)) block).1
            = block.Hash ∧
        (processBlock env (restart (runCalls env (newLeaderSelector crs sigToPub) calls))
          block).1.minCRSBlock
            = distance env (restart (runCalls env (newLeaderSelector crs sigToPub) calls))
                block.CRSSignature) := by
  refine ⟨fun _ => rfl, ?_⟩
  intro block hv hdigest
  have hl0 := fresh_eq_newLeaderSelector env crs sigToPub calls
    (restart (runCalls env (newLeaderSelector crs sigToPub) calls)) (Or.inr rfl)
  have hlt : distance env (restart (runCalls env (newLeaderSelector crs sigToPub) calls))
      block.CRSSignature < maxHash n :=
    distance_lt_of_not_extreme env crs _ (by rw [hl0]; rfl) _ hdigest
  refine ⟨?_, ?_⟩
  · have h := processBlock_isNone env
      (restart (runCalls env (newLeaderSelector crs sigToPub) calls)) block
    rw [hv] at h
    exact Option.isNone_iff_eq_none.mp h
  · rcases processBlock_step env
      (restart (runCalls env (newLeaderSelector crs sigToPub) calls)) block with
      ⟨_, _, hm, hh⟩ | ⟨hn, _⟩
    · exact ⟨hh, hm⟩
    · exact absurd ⟨hv, hlt⟩ hn

/-- Witness for C6, the example of the specification: after the run on B1, B2,
B3 (leader B2), restart gives the zero hash and processing B1 alone makes B1
the leader. -/
theorem restart_then_processBlock_witness :
    leaderBlockHash (runCalls scenario (newLeaderSelector scenarioCRS scenarioSigToPub)
      [Call.processBlock B1, Call.processBlock B2, Call.processBlock B3]) = B2.Hash ∧
    leaderBlockHash (restart (runCalls scenario
      (newLeaderSelector scenarioCRS scenarioSigToPub)
      [Call.processBlock B1, Call.processBlock B2, Call.processBlock B3])) = Hash.zero 32 ∧
    verifies scenario (restart (runCalls scenario
      (newLeaderSelector scenarioCRS scenarioSigToPub)
      [Call.processBlock B1, Call.processBlock B2, Call.processBlock B3])) B1 = true ∧
    extremeDigest scenario scenarioCRS B1.CRSSignature = false ∧
    leaderBlockHash (processBlock scenario (restart (runCalls scenario
      (newLeaderSelector scenarioCRS scenarioSigToPub)
      [Call.processBlock B1, Call.processBlock B2, Call.processBlock B3])) B1).1
        = B1.Hash :=
  have h := restart_then_processBlock scenario scenarioCRS scenarioSigToPub
    [Call.processBlock B1, Call.processBlock B2, Call.processBlock B3]
  ⟨by decide, h.1 _, by decide, by decide, (h.2 B1 (by decide) (by decide)).2.1⟩

/-! ## Invariants of the tracked best distance -/

/-- Claim C7: along any sequence of processBlock calls with no restart between
them, started in any selector state, bestDistance after each call is at most
bestDistance before it (whether the call succeeded or failed), and
bestBlockHash after a call differs from bestBlockHash before it only if the
block of that call verified and its distance was strictly below the
bestDistance before the call, in which case bestDistance strictly decreased.
The sequence is pre, then block, then post; the call looked at is the one on
block. -/
theorem bestDistance_monotone {n : Nat} (env : Collaborators n) (l : leaderSelector n)
    (pre : List (Block n)) (block : Block n) (post : List (Block n)) :
    (processBlock env (processBlocks env l pre) block).1.minCRSBlock
      ≤ (processBlocks env l pre).minCRSBlock ∧
    ((processBlock env (processBlocks env l pre) block).1.minBlockHash
        ≠ (processBlocks env l pre).minBlockHash →
      (processBlock env (processBlocks env l pre) block).2 = none ∧
      verifies env (processBlocks env l pre) block = true ∧
      distance env (processBlocks env l pre) block.CRSSignature
        < (processBlocks env l pre).minCRSBlock ∧
      (processBlock env (processBlocks env l pre) block).1.minCRSBlock
        < (processBlocks env l pre).minCRSBlock) ∧
    (processBlocks env l pre).minCRSBlock ≤ l.minCRSBlock ∧
    (processBlocks env l (pre ++ block :: post)).minCRSBlock
      ≤ (processBlock env (processBlocks env l pre) block).1.minCRSBlock := by
  refine ⟨processBlock_minCRSBlock_le env _ block, ?_,
    processBlocks_minCRSBlock_le env pre l, ?_⟩
  · intro hne
    rcases processBlock_step env (processBlocks env l pre) block with
      ⟨hv, hlt, hm, _⟩ | ⟨_, he⟩
    · refine ⟨?_, hv, hlt, ?_⟩
      · have h := processBlock_isNone env (processBlocks env l pre) block
        rw [hv] at h
        exact Option.isNone_iff_eq_none.mp h
      · rw [hm]
        exact hlt
    · rw [he] at hne
      exact absurd rfl hne
  · rw [processBlocks_append, processBlocks_cons]
    exact processBlocks_minCRSBlock_le env post _

/-- Witness for C7 in the scenario: in the run B1, Bbad, B2, B3 the call on B2
changes the recorded hash (from that of B1 to that of B2), and indeed B2
verified and bestDistance dropped from 50 to 10. -/
theorem bestDistance_monotone_witness :
    (processBlock scenario (processBlocks scenario scenarioSelector [B1, Bbad]) B2).1.minBlockHash
        ≠ (processBlocks scenario scenarioSelector [B1, Bbad]).minBlockHash ∧
    verifies scenario (processBlocks scenario scenarioSelector [B1, Bbad]) B2 = true ∧
    (processBlocks scenario scenarioSelector [B1, Bbad]).minCRSBlock = 50 ∧
    (processBlock scenario (processBlocks scenario scenarioSelector [B1, Bbad]) B2).1.minCRSBlock
        < (processBlocks scenario scenarioSelector [B1, Bbad]).minCRSBlock :=
  have h := (bestDistance_monotone scenario scenarioSelector [B1, Bbad] B2 [B3]).2.1
    (by decide)
  ⟨by decide, h.2.1, by decide, h.2.2.2⟩

/-- Claim C8: in every state reachable from newLeaderSelector, for any CRS
hash, by any sequence of processBlock calls (on any blocks, valid or not) and
restart calls, bestDistance lies between 0 and MaxHash, where MaxHash is the
all-ones value of the hash width, 2^(8*HashLength) - 1. -/
theorem bestDistance_bounds {n : Nat} (env : Collaborators n) (crs : Hash n)
    (sigToPub : SigToPubFn n) (calls : List (Call n)) :
    0 ≤ (runCalls env (newLeaderSelector crs sigToPub) calls).minCRSBlock ∧
    (runCalls env (newLeaderSelector crs sigToPub) calls).minCRSBlock ≤ maxHash n ∧
    maxHash n = 2 ^ (8 * n) - 1 := by
  have key : ∀ (cs : List (Call n)) (s : leaderSelector n),
      0 ≤ s.numCRS → s.numCRS ≤ maxHash n → 0 ≤ s.minCRSBlock →
      s.minCRSBlock ≤ maxHash n →
      0 ≤ (runCalls env s cs).minCRSBlock ∧ (runCalls env s cs).minCRSBlock ≤ maxHash n := by
    intro cs
    induction cs with
    | nil => intro s _ _ h3 h4; exact ⟨h3, h4⟩
    | cons c rest ih =>
      intro s h1 h2 h3 h4
      rw [runCalls_cons]
      cases c with
      | processBlock b =>
        have hn : (processBlock env s b).1.numCRS = s.numCRS := processBlock_numCRS env s b
        apply ih
        · show 0 ≤ (processBlock env s b).1.numCRS
          rw [hn]; exact h1
        · show (processBlock env s b).1.numCRS ≤ maxHash n
          rw [hn]; exact h2
        · show 0 ≤ (processBlock env s b).1.minCRSBlock
          rcases processBlock_step env s b with ⟨_, _, hm, _⟩ | ⟨_, he⟩
          · rw [hm]; exact distance_nonneg env s _
          · rw [he]; exact h3
        · exact le_trans (processBlock_minCRSBlock_le env s b) h4
      | restart =>
        apply ih
        · exact h1
        · exact h2
        · exact maxHash_nonneg n
        · exact le_refl _
  obtain ⟨h0, h1⟩ := key calls (newLeaderSelector crs sigToPub)
    (SetBytes_nonneg crs.bytes) (SetBytes_hash_le_maxHash crs) (maxHash_nonneg n) (le_refl _)
  exact ⟨h0, h1, maxHash_eq_two_pow n⟩

/-! ## The zero hash and the blocks seen since the last reset -/

/-- Counterexample to C9 as stated, in a run from newLeaderSelector: a
correctly signed block whose Hash field is the zero hash is processed without
error and is recorded (bestDistance drops below MaxHash), and leaderBlockHash,
which is the Hash of that block, is the zero hash although a valid block has
been processed since construction; so the equivalence fails. -/
theorem zero_hash_iff_counterexample :
    (processBlock scenario scenarioSelector BzeroHash).2 = none ∧
    validSinceReset scenario scenarioSelector [Call.processBlock BzeroHash] false = true ∧
    (runCalls scenario scenarioSelector [Call.processBlock BzeroHash]).minCRSBlock
      < maxHash 32 ∧
    leaderBlockHash (runCalls scenario scenarioSelector [Call.processBlock BzeroHash])
      = Hash.zero 32 ∧
    ¬ (leaderBlockHash (runCalls scenario scenarioSelector [Call.processBlock BzeroHash])
          = Hash.zero 32 ↔
        validSinceReset scenario scenarioSelector [Call.processBlock BzeroHash] false
          = false) :=
  ⟨by decide, by decide, by decide, by decide, by decide⟩

/-- Claim C9, amended: in every state reached from newLeaderSelector by
processBlock and restart calls, if no valid block has been processed (no
processBlock call returned without error) since construction or the last
restart then leaderBlockHash is the zero hash; and leaderBlockHash is the zero
hash if and only if no valid block has been processed since then or the block
recorded as leader (the earliest verifying block at the recorded bestDistance
among those processed since then) has the zero hash as its own Hash.  The
digest function is a collaborator outside the embedded file; the equivalence
assumes that no verifying block processed since then has a signature that is a
preimage of the extreme digest. -/
theorem zero_hash_iff_no_valid_block {n : Nat} (env : Collaborators n) (crs : Hash n)
    (sigToPub : SigToPubFn n) (calls : List (Call n)) :
    (validSinceReset env (newLeaderSelector crs sigToPub) calls false = false →
      leaderBlockHash (runCalls env (newLeaderSelector crs sigToPub) calls) = Hash.zero n) ∧
    ((∀ b ∈ blocksSinceReset calls [],
        verifies env (newLeaderSelector crs sigToPub) b = true →
          extremeDigest env crs b.CRSSignature = false) →
      (leaderBlockHash (runCalls env (newLeaderSelector crs sigToPub) calls) = Hash.zero n ↔
        (validSinceReset env (newLeaderSelector crs sigToPub) calls false = false ∨
          ∃ b, (blocksSinceReset calls []).find?
              (fun b => verifies env (newLeaderSelector crs sigToPub) b &&
                decide (distance env (newLeaderSelector crs sigToPub) b.CRSSignature
                  = (runCalls env (newLeaderSelector crs sigToPub) calls).minCRSBlock))
              = some b ∧
            b.Hash = Hash.zero n))) := by
  have hrun := runCalls_eq_processBlocks env (newLeaderSelector crs sigToPub) rfl rfl calls []
  have hflag := validSinceReset_eq_any env (newLeaderSelector crs sigToPub) rfl rfl calls []
  rw [processBlocks_nil] at hrun hflag
  simp only [List.any_nil] at hflag
  rw [hrun, hflag]
  have hnone : (blocksSinceReset calls []).any (verifies env (newLeaderSelector crs sigToPub))
        = false →
      leaderBlockHash (processBlocks env (newLeaderSelector crs sigToPub)
        (blocksSinceReset calls [])) = Hash.zero n := by
    intro hno
    have hfil : (blocksSinceReset calls []).filter
        (verifies env (newLeaderSelector crs sigToPub)) = [] := by
      rw [List.filter_eq_nil_iff]
      intro b hb hvb
      have : (blocksSinceReset calls []).any
          (verifies env (newLeaderSelector crs sigToPub)) = true :=
        List.any_eq_true.mpr ⟨b, hb, hvb⟩
      rw [hno] at this
      exact Bool.noConfusion this
    rw [← processBlocks_filter env (newLeaderSelector crs sigToPub) (blocksSinceReset calls [])
      (newLeaderSelector crs sigToPub) rfl rfl, hfil]
    rfl
  refine ⟨hnone, ?_⟩
  intro hgood
  obtain ⟨hlow, hcase⟩ := processBlocks_best env (newLeaderSelector crs sigToPub)
    (blocksSinceReset calls []) (newLeaderSelector crs sigToPub) rfl rfl rfl
  constructor
  · intro hzero
    rcases hcase with ⟨em, _⟩ | ⟨_, x, hfind, hx⟩
    · -- nothing was recorded: then no block verified
      left
      cases hany : (blocksSinceReset calls []).any
          (verifies env (newLeaderSelector crs sigToPub)) with
      | false => rfl
      | true =>
        obtain ⟨b, hb, hvb⟩ := List.any_eq_true.mp hany
        have hlt := distance_lt_of_not_extreme env crs (newLeaderSelector crs sigToPub) rfl
          b.CRSSignature (hgood b hb hvb)
        have hle := hlow b hb hvb
        rw [em] at hle
        exact absurd (lt_of_le_of_lt hle hlt) (lt_irrefl _)
    · right
      refine ⟨x, hfind, ?_⟩
      rw [← hx]
      exact hzero
  · rintro (hno | ⟨b, hfind, hb⟩)
    · exact hnone hno
    · rcases hcase with ⟨_, eh⟩ | ⟨_, x, hfx, hx⟩
      · show (processBlocks env (newLeaderSelector crs sigToPub)
          (blocksSinceReset calls [])).minBlockHash = Hash.zero n
        rw [eh]
        rfl
      · rw [hfx] at hfind
        show (processBlocks env (newLeaderSelector crs sigToPub)
          (blocksSinceReset calls [])).minBlockHash = Hash.zero n
        rw [hx, Option.some.inj hfind]
        exact hb

/-- Witness for the amended C9 in the scenario.  After B1, a restart and the
badly signed block no valid block has been processed since the reset and the
leader hash is zero.  After B2 and then a verifying block with a zero Hash at
distance 50 the premise on the digests holds, a valid block has been
processed, the recorded leader is B2 with a non-zero Hash, and the leader hash
is not zero. -/
theorem zero_hash_iff_no_valid_block_witness :
    validSinceReset scenario (newLeaderSelector scenarioCRS scenarioSigToPub)
      [Call.processBlock B1, Call.restart, Call.processBlock Bbad] false = false ∧
    leaderBlockHash (runCalls scenario (newLeaderSelector scenarioCRS scenarioSigToPub)
      [Call.processBlock B1, Call.restart, Call.processBlock Bbad]) = Hash.zero 32 ∧
    (∀ b ∈ blocksSinceReset [Call.processBlock B2, Call.processBlock BzeroHashFar] [],
        verifies scenario (newLeaderSelector scenarioCRS scenarioSigToPub) b = true →
          extremeDigest scenario scenarioCRS b.CRSSignature = false) ∧
    validSinceReset scenario (newLeaderSelector scenarioCRS scenarioSigToPub)
      [Call.processBlock B2, Call.processBlock BzeroHashFar] false = true ∧
    leaderBlockHash (runCalls scenario (newLeaderSelector scenarioCRS scenarioSigToPub)
      [Call.processBlock B2, Call.processBlock BzeroHashFar]) ≠ Hash.zero 32 := by
  have hprem : ∀ b ∈ blocksSinceReset
      [Call.processBlock B2, Call.processBlock BzeroHashFar] [],
      verifies scenario (newLeaderSelector scenarioCRS scenarioSigToPub) b = true →
        extremeDigest scenario scenarioCRS b.CRSSignature = false := by decide
  have hvalid : validSinceReset scenario (newLeaderSelector scenarioCRS scenarioSigToPub)
      [Call.processBlock B2, Call.processBlock BzeroHashFar] false = true := by decide
  refine ⟨by decide, ?_, hprem, hvalid, ?_⟩
  · exact (zero_hash_iff_no_valid_block scenario scenarioCRS scenarioSigToPub
      [Call.processBlock B1, Call.restart, Call.processBlock Bbad]).1 (by decide)
  · intro hz
    rcases ((zero_hash_iff_no_valid_block scenario scenarioCRS scenarioSigToPub
      [Call.processBlock B2, Call.processBlock BzeroHashFar]).2 hprem).mp hz with
      h | ⟨b, hfind, hb⟩
    · rw [hvalid] at h
      exact Bool.noConfusion h
    · have hB2 : (blocksSinceReset [Call.processBlock B2, Call.processBlock BzeroHashFar]
          []).find? (fun b =>
            verifies scenario (newLeaderSelector scenarioCRS scenarioSigToPub) b &&
            decide (distance scenario (newLeaderSelector scenarioCRS scenarioSigToPub)
              b.CRSSignature
                = (runCalls scenario (newLeaderSelector scenarioCRS scenarioSigToPub)
                    [Call.processBlock B2, Call.processBlock BzeroHashFar]).minCRSBlock))
          = some B2 := by decide
      rw [hB2] at hfind
      rw [← Option.some.inj hfind] at hb
      exact absurd hb (by decide)

/-! ## Probability, restart and construction -/

/-- Claim C11: for a selector built by newLeaderSelector (hash width at least
one byte, so that MaxHash is not zero) and any signature, the exact rational
that probability computes before its conversion to float64 is
1 - distance/MaxHash; it lies between 0 and 1, it is 1 exactly when the
distance is 0, and it is 0 exactly when the distance is MaxHash. -/
theorem probability_spec {n : Nat} (env : Collaborators n) (crs : Hash n)
    (sigToPub : SigToPubFn n) (sig : Signature) (hn : 0 < n) :
    ∃ p : ℚ, probability env (newLeaderSelector crs sigToPub) sig = some p ∧
      p = 1 - (distance env (newLeaderSelector crs sigToPub) sig : ℚ) / (maxHash n : ℚ) ∧
      0 ≤ p ∧ p ≤ 1 ∧
      (p = 1 ↔ distance env (newLeaderSelector crs sigToPub) sig = 0) ∧
      (p = 0 ↔ distance env (newLeaderSelector crs sigToPub) sig = maxHash n) := by
  refine ⟨_, probability_eq env _ sig hn, rfl, ?_⟩
  have hM : (0 : ℚ) < (maxHash n : ℚ) := by exact_mod_cast maxHash_pos hn
  have hd0 : (0 : ℚ) ≤ (distance env (newLeaderSelector crs sigToPub) sig : ℚ) := by
    exact_mod_cast distance_nonneg env (newLeaderSelector crs sigToPub) sig
  have hd1 : (distance env (newLeaderSelector crs sigToPub) sig : ℚ) ≤ (maxHash n : ℚ) := by
    exact_mod_cast distance_le_maxHash env (newLeaderSelector crs sigToPub) sig
      (SetBytes_nonneg crs.bytes) (SetBytes_hash_le_maxHash crs)
  have hq0 : 0 ≤ (distance env (newLeaderSelector crs sigToPub) sig : ℚ) / (maxHash n : ℚ) :=
    div_nonneg hd0 (le_of_lt hM)
  have hq1 : (distance env (newLeaderSelector crs sigToPub) sig : ℚ) / (maxHash n : ℚ) ≤ 1 :=
    (div_le_one hM).mpr hd1
  refine ⟨by linarith, by linarith, ?_, ?_⟩
  · constructor
    · intro h
      have hz : (distance env (newLeaderSelector crs sigToPub) sig : ℚ) / (maxHash n : ℚ)
          = 0 := by linarith
      rcases div_eq_zero_iff.mp hz with h0 | h0
      · exact_mod_cast h0
      · exact absurd h0 (ne_of_gt hM)
    · intro h
      rw [h]
      simp
  · constructor
    · intro h
      have hz : (distance env (newLeaderSelector crs sigToPub) sig : ℚ) / (maxHash n : ℚ)
          = 1 := by linarith
      have := (div_eq_one_iff_eq (ne_of_gt hM)).mp hz
      exact_mod_cast this
    · intro h
      rw [h, div_self (ne_of_gt hM)]
      ring

/-- Witness for C11 in the scenario (hashes of 32 bytes): the signature of B1
is at distance 50, and the exact probability is 1 - 50/MaxHash. -/
theorem probability_spec_witness :
    0 < 32 ∧
    ∃ p : ℚ, probability scenario (newLeaderSelector scenarioCRS scenarioSigToPub)
        B1.CRSSignature = some p ∧
      p = 1 - ((50 : Int) : ℚ) / (maxHash 32 : ℚ) ∧ 0 ≤ p ∧ p ≤ 1 := by
  obtain ⟨p, h1, h2, h3, h4, _⟩ :=
    probability_spec scenario scenarioCRS scenarioSigToPub B1.CRSSignature (by decide)
  have hd : distance scenario (newLeaderSelector scenarioCRS scenarioSigToPub)
      B1.CRSSignature = 50 := by decide
  rw [hd] at h2
  exact ⟨by decide, p, h1, h2, h3, h4⟩

/-- Claim C12: in every selector state restart sets bestDistance to MaxHash and
bestBlockHash to the zero hash and leaves hashCRS, numCRS and sigToPub as they
were; it is a total function (always succeeds) and restarting twice equals
restarting once; and in every state a selector can be in (any state reached
from newLeaderSelector by processBlock and restart calls) the result of
restart is the state that newLeaderSelector produces from the hashCRS and
sigToPub of the selector. -/
theorem restart_spec {n : Nat} (env : Collaborators n) :
    (∀ l : leaderSelector n,
      (restart l).minCRSBlock = maxHash n ∧
      (restart l).minBlockHash = Hash.zero n ∧
      (restart l).hashCRS = l.hashCRS ∧
      (restart l).numCRS = l.numCRS ∧
      (restart l).sigToPub = l.sigToPub ∧
      restart (restart l) = restart l) ∧
    (∀ (crs : Hash n) (sigToPub : SigToPubFn n) (calls : List (Call n)),
      restart (runCalls env (newLeaderSelector crs sigToPub) calls)
        = newLeaderSelector (runCalls env (newLeaderSelector crs sigToPub) calls).hashCRS
            (runCalls env (newLeaderSelector crs sigToPub) calls).sigToPub ∧
      restart (runCalls env (newLeaderSelector crs sigToPub) calls)
        = newLeaderSelector crs sigToPub) := by
  constructor
  · intro l
    exact ⟨rfl, rfl, rfl, rfl, rfl, rfl⟩
  · intro crs sigToPub calls
    obtain ⟨f1, f2, f3⟩ := runCalls_frame env crs sigToPub calls
    have h : restart (runCalls env (newLeaderSelector crs sigToPub) calls)
        = newLeaderSelector crs sigToPub :=
      restart_eq_of_frame _ (newLeaderSelector crs sigToPub) f1 f2 f3 rfl rfl
    rw [f1, f3]
    exact ⟨h, h⟩

/-- Claim C13: newLeaderSelector(crs, f) yields hashCRS = crs, numCRS = crs read
as an unsigned big-endian integer (between 0 and MaxHash), bestDistance =
MaxHash, bestBlockHash = zero hash (so leaderBlockHash returns the zero hash)
and sigToPub = f; and newGenesisLeaderSelector(seed, f) equals
newLeaderSelector(Keccak256(seed), f) for every seed. -/
theorem newLeaderSelector_spec {n : Nat} (env : Collaborators n) (crs : Hash n)
    (f : SigToPubFn n) (seed : List Byte) :
    (newLeaderSelector crs f).hashCRS = crs ∧
    (newLeaderSelector crs f).numCRS = SetBytes crs.bytes ∧
    0 ≤ (newLeaderSelector crs f).numCRS ∧
    (newLeaderSelector crs f).numCRS ≤ maxHash n ∧
    (newLeaderSelector crs f).minCRSBlock = maxHash n ∧
    (newLeaderSelector crs f).minBlockHash = Hash.zero n ∧
    leaderBlockHash (newLeaderSelector crs f) = Hash.zero n ∧
    (newLeaderSelector crs f).sigToPub = f ∧
    newGenesisLeaderSelector env seed f = newLeaderSelector (env.Keccak256Hash seed) f :=
  ⟨rfl, rfl, SetBytes_nonneg crs.bytes, SetBytes_hash_le_maxHash crs, rfl, rfl, rfl, rfl, rfl⟩

/-! ## Preparing a block -/

/-- Claim C14: prepareBlock stores into block.CRSSignature the result of
signing the message hashCRS(block, selector.hashCRS) with the key, leaves the
other fields of the block and every field of the selector as they were, and
returns exactly the error of the signing primitive (an error if and only if
signing returned one).  Round trip, against the verifier modelled from the
specification: when the message of the prepared block is the message that was
signed, and recovery through sigToPub of what signing produced for that
message yields a key of the proposer of the block, processBlock of a selector
with the same CRS accepts the prepared block. -/
theorem prepareBlock_spec {n : Nat} (env : Collaborators n) (l : leaderSelector n)
    (block : Block n) (prv : PrivateKey n) :
    (prepareBlock env l block prv).2.1.CRSSignature
      = (prv.Sign (env.hashCRS block l.hashCRS)).1 ∧
    (prepareBlock env l block prv).2.1.Hash = block.Hash ∧
    (prepareBlock env l block prv).2.1.ProposerID = block.ProposerID ∧
    (prepareBlock env l block prv).2.1.Payload = block.Payload ∧
    (prepareBlock env l block prv).1 = l ∧
    (prepareBlock env l block prv).2.2 = (prv.Sign (env.hashCRS block l.hashCRS)).2 ∧
    ((prepareBlock env l block prv).2.2 ≠ none ↔
      (prv.Sign (env.hashCRS block l.hashCRS)).2 ≠ none) ∧
    (∀ (nodeID : PublicKey → List Byte) (l2 : leaderSelector n) (pub : PublicKey),
      env.verifyCRSSignature = verifyCRSSignatureModel env.hashCRS nodeID →
      l2.hashCRS = l.hashCRS →
      env.hashCRS (prepareBlock env l block prv).2.1 l.hashCRS
        = env.hashCRS block l.hashCRS →
      l2.sigToPub (env.hashCRS block l.hashCRS)
        (prv.Sign (env.hashCRS block l.hashCRS)).1 = (pub, none) →
      nodeID pub = block.ProposerID →
      (processBlock env l2 (prepareBlock env l block prv).2.1).2 = none) := by
  refine ⟨rfl, rfl, rfl, rfl, rfl, rfl, Iff.rfl, ?_⟩
  intro nodeID l2 pub hver hcrs hmsg hrec hid
  rw [processBlock_snd, hver, hcrs]
  unfold verifyCRSSignatureModel
  simp only [hmsg]
  have hsig : (prepareBlock env l block prv).2.1.CRSSignature
      = (prv.Sign (env.hashCRS block l.hashCRS)).1 := rfl
  have hprop : (prepareBlock env l block prv).2.1.ProposerID = block.ProposerID := rfl
  rw [hsig, hrec, hprop]
  simp [hid]

/-- Witness for C14 with the toy signature scheme: the block of proposer 7 is
signed with key 7 without error, the message does not depend on the stored
signature, recovery yields key 7, and processBlock accepts the prepared
block; with a key whose Sign fails, the error of Sign comes back. -/
theorem prepareBlock_spec_witness :
    signingScenario.verifyCRSSignature
      = verifyCRSSignatureModel signingScenario.hashCRS id ∧
    (prepareBlock signingScenario signingSelector unsignedBlock (toySign 7)).2.2 = none ∧
    signingSelector.sigToPub (signingScenario.hashCRS unsignedBlock signingSelector.hashCRS)
        ((toySign 7).Sign
          (signingScenario.hashCRS unsignedBlock signingSelector.hashCRS)).1 = ([7], none) ∧
    (processBlock signingScenario signingSelector
      (prepareBlock signingScenario signingSelector unsignedBlock (toySign 7)).2.1).2 = none ∧
    (prepareBlock signingScenario signingSelector unsignedBlock brokenKey).2.2
      = some (GoError.external "no entropy") :=
  ⟨rfl, by decide, by decide,
    (prepareBlock_spec signingScenario signingSelector unsignedBlock (toySign 7)).2.2.2.2.2.2.2
      id signingSelector [7] rfl rfl rfl (by decide) (by decide),
    by decide⟩

/-! ## Behaviour implied by the sentinel -/

/-- Claim C17: for a freshly constructed or restarted selector and a verifying
block whose signature distance is exactly MaxHash, processBlock returns no
error, bestDistance stays MaxHash and leaderBlockHash stays the zero hash (the
selector is unchanged); and in every state reached from newLeaderSelector the
distance of a signature is MaxHash exactly when one of numCRS and the
signature digest is 0 and the other is MaxHash. -/
theorem far_block_not_recorded {n : Nat} (env : Collaborators n) :
    (∀ (l0 : leaderSelector n) (block : Block n),
      ((∃ crs sigToPub, l0 = newLeaderSelector crs sigToPub) ∨ (∃ l, l0 = restart l)) →
      verifies env l0 block = true →
      distance env l0 block.CRSSignature = maxHash n →
        (processBlock env l0 block).2 = none ∧
        (processBlock env l0 block).1.minCRSBlock = maxHash n ∧
        leaderBlockHash (processBlock env l0 block).1 = Hash.zero n ∧
        (processBlock env l0 block).1 = l0) ∧
    (∀ (crs : Hash n) (sigToPub : SigToPubFn n) (calls : List (Call n)) (sig : Signature),
      distance env (runCalls env (newLeaderSelector crs sigToPub) calls) sig = maxHash n ↔
        ((runCalls env (newLeaderSelector crs sigToPub) calls).numCRS = 0 ∧
            SetBytes (env.Keccak256Hash sig).bytes = maxHash n) ∨
          ((runCalls env (newLeaderSelector crs sigToPub) calls).numCRS = maxHash n ∧
            SetBytes (env.Keccak256Hash sig).bytes = 0)) := by
  constructor
  · intro l0 block hfresh hv hd
    have hmin : l0.minCRSBlock = maxHash n := by
      rcases hfresh with ⟨crs, f, rfl⟩ | ⟨l, rfl⟩ <;> rfl
    have hzero : l0.minBlockHash = Hash.zero n := by
      rcases hfresh with ⟨crs, f, rfl⟩ | ⟨l, rfl⟩ <;> rfl
    have hsame : (processBlock env l0 block).1 = l0 := by
      rcases processBlock_step env l0 block with ⟨_, hlt, _, _⟩ | ⟨_, he⟩
      · rw [hd, hmin] at hlt
        exact absurd hlt (lt_irrefl _)
      · exact he
    refine ⟨?_, ?_, ?_, hsame⟩
    · have h := processBlock_isNone env l0 block
      rw [hv] at h
      exact Option.isNone_iff_eq_none.mp h
    · rw [hsame, hmin]
    · rw [hsame]
      exact hzero
  · intro crs sigToPub calls sig
    obtain ⟨_, f2, _⟩ := runCalls_frame env crs sigToPub calls
    rw [distance_eq_abs]
    apply abs_sub_eq_top_iff
    · rw [f2]; exact SetBytes_nonneg crs.bytes
    · rw [f2]; exact SetBytes_hash_le_maxHash crs
    · exact SetBytes_nonneg _
    · exact SetBytes_hash_le_maxHash _

/-- Witness for C17: with a zero CRS a correctly signed block whose signature
digest is all ones has distance MaxHash; it is processed without error and
leaves the fresh selector as it was. -/
theorem far_block_not_recorded_witness :
    verifies scenario zeroCRSSelector (Bfar 1) = true ∧
    distance scenario zeroCRSSelector (Bfar 1).CRSSignature = maxHash 32 ∧
    (processBlock scenario zeroCRSSelector (Bfar 1)).2 = none ∧
    leaderBlockHash (processBlock scenario zeroCRSSelector (Bfar 1)).1 = Hash.zero 32 :=
  have h := (far_block_not_recorded scenario).1 zeroCRSSelector (Bfar 1)
    (Or.inl ⟨Hash.zero 32, scenarioSigToPub, rfl⟩) (by decide) (by decide)
  ⟨by decide, by decide, h.1, h.2.2.1⟩

/-- Claim C18: in every state reached from newLeaderSelector by processBlock
and restart calls, bestDistance = MaxHash implies that bestBlockHash is the
zero hash, and bestDistance < MaxHash implies that some block processed
successfully since construction or the last restart has Hash = bestBlockHash
and signature distance = bestDistance. -/
theorem best_fields_coupled {n : Nat} (env : Collaborators n) (crs : Hash n)
    (sigToPub : SigToPubFn n) (calls : List (Call n)) :
    ((runCalls env (newLeaderSelector crs sigToPub) calls).minCRSBlock = maxHash n →
      (runCalls env (newLeaderSelector crs sigToPub) calls).minBlockHash = Hash.zero n) ∧
    ((runCalls env (newLeaderSelector crs sigToPub) calls).minCRSBlock < maxHash n →
      ∃ b ∈ blocksSinceReset calls [],
        verifies env (runCalls env (newLeaderSelector crs sigToPub) calls) b = true ∧
        (processBlock env (runCalls env (newLeaderSelector crs sigToPub) calls) b).2 = none ∧
        b.Hash = (runCalls env (newLeaderSelector crs sigToPub) calls).minBlockHash ∧
        distance env (runCalls env (newLeaderSelector crs sigToPub) calls) b.CRSSignature
          = (runCalls env (newLeaderSelector crs sigToPub) calls).minCRSBlock) := by
  obtain ⟨f1, f2, f3⟩ := runCalls_frame env crs sigToPub calls
  have hrun := runCalls_eq_processBlocks env (newLeaderSelector crs sigToPub) rfl rfl calls []
  rw [processBlocks_nil] at hrun
  obtain ⟨_, hcase⟩ := processBlocks_best env (newLeaderSelector crs sigToPub)
    (blocksSinceReset calls []) (newLeaderSelector crs sigToPub) rfl rfl rfl
  rw [← hrun] at hcase
  constructor
  · intro hmax
    rcases hcase with ⟨_, eh⟩ | ⟨hlt, _⟩
    · rw [eh]; rfl
    · rw [hmax] at hlt
      exact absurd hlt (lt_irrefl _)
  · intro hlt
    rcases hcase with ⟨em, _⟩ | ⟨_, b, hfind, hb⟩
    · rw [em] at hlt
      exact absurd hlt (lt_irrefl _)
    · have hp := List.find?_some hfind
      simp only [Bool.and_eq_true, decide_eq_true_eq] at hp
      have hv : verifies env (runCalls env (newLeaderSelector crs sigToPub) calls) b
          = true := by
        rw [verifies_congr env _ (newLeaderSelector crs sigToPub) f1 f3 b]
        exact hp.1
      refine ⟨b, List.mem_of_find?_eq_some hfind, hv, ?_, hb.symm, ?_⟩
      · have h := processBlock_isNone env
          (runCalls env (newLeaderSelector crs sigToPub) calls) b
        rw [hv] at h
        exact Option.isNone_iff_eq_none.mp h
      · rw [distance_congr env _ (newLeaderSelector crs sigToPub) f2]
        exact hp.2

/-- Witness for C18 in the scenario: after B1, a restart, B3 and the badly
signed block, bestDistance is 10, below MaxHash, and a block processed
successfully since the restart carries the recorded hash and distance. -/
theorem best_fields_coupled_witness :
    (runCalls scenario (newLeaderSelector scenarioCRS scenarioSigToPub)
      [Call.processBlock B1, Call.restart, Call.processBlock B3, Call.processBlock Bbad]
      ).minCRSBlock < maxHash 32 ∧
    ∃ b ∈ blocksSinceReset
        [Call.processBlock B1, Call.restart, Call.processBlock B3, Call.processBlock Bbad] [],
      b.Hash = (runCalls scenario (newLeaderSelector scenarioCRS scenarioSigToPub)
        [Call.processBlock B1, Call.restart, Call.processBlock B3, Call.processBlock Bbad]
        ).minBlockHash :=
  have h := (best_fields_coupled scenario scenarioCRS scenarioSigToPub
    [Call.processBlock B1, Call.restart, Call.processBlock B3, Call.processBlock Bbad]).2
    (by decide)
  ⟨by decide, h.elim (fun b hb => ⟨b, hb.1, hb.2.2.2.1⟩)⟩

/-! ## Independence of the arrival order -/

/-- Claim C19: from any selector state, two sequences of blocks that are
permutations of each other give the same final bestDistance; when any two
verifying blocks of the sequence with the same distance are the same block
(the verified blocks have pairwise distinct distances), they also give the
same leaderBlockHash; and in general, if the two leaders differ, both are
hashes of verifying blocks of the sequence tied at the final bestDistance. -/
theorem order_independence {n : Nat} (env : Collaborators n) (l : leaderSelector n)
    (bs1 bs2 : List (Block n)) (hperm : bs1.Perm bs2) :
    (processBlocks env l bs1).minCRSBlock = (processBlocks env l bs2).minCRSBlock ∧
    ((∀ a ∈ bs1, ∀ b ∈ bs1, verifies env l a = true → verifies env l b = true →
        distance env l a.CRSSignature = distance env l b.CRSSignature → a = b) →
      leaderBlockHash (processBlocks env l bs1)
        = leaderBlockHash (processBlocks env l bs2)) ∧
    (leaderBlockHash (processBlocks env l bs1)
        ≠ leaderBlockHash (processBlocks env l bs2) →
      ∃ a ∈ bs1, ∃ b ∈ bs1,
        verifies env l a = true ∧ verifies env l b = true ∧
        distance env l a.CRSSignature = (processBlocks env l bs1).minCRSBlock ∧
        distance env l b.CRSSignature = (processBlocks env l bs1).minCRSBlock ∧
        a.Hash = leaderBlockHash (processBlocks env l bs1) ∧
        b.Hash = leaderBlockHash (processBlocks env l bs2)) := by
  have hmin : (processBlocks env l bs1).minCRSBlock
      = (processBlocks env l bs2).minCRSBlock := by
    rw [processBlocks_foldl_min env l bs1 l rfl rfl rfl,
      processBlocks_foldl_min env l bs2 l rfl rfl rfl]
    exact List.Perm.foldl_eq' ((hperm.filter _).map _)
      (fun x _ y _ z => min_right_comm z x y) _
  obtain ⟨_, hc1⟩ := processBlocks_best env l bs1 l rfl rfl rfl
  obtain ⟨_, hc2⟩ := processBlocks_best env l bs2 l rfl rfl rfl
  rw [← hmin] at hc2
  -- either both runs left the hash alone, or both found a block at the minimum
  have hboth : leaderBlockHash (processBlocks env l bs1)
        = leaderBlockHash (processBlocks env l bs2) ∨
      ∃ a ∈ bs1, ∃ b ∈ bs1,
        verifies env l a = true ∧ verifies env l b = true ∧
        distance env l a.CRSSignature = (processBlocks env l bs1).minCRSBlock ∧
        distance env l b.CRSSignature = (processBlocks env l bs1).minCRSBlock ∧
        a.Hash = leaderBlockHash (processBlocks env l bs1) ∧
        b.Hash = leaderBlockHash (processBlocks env l bs2) := by
    rcases hc1 with ⟨em1, eh1⟩ | ⟨hlt1, a, hfa, ha⟩
    · rcases hc2 with ⟨_, eh2⟩ | ⟨hlt2, _⟩
      · left
        show (processBlocks env l bs1).minBlockHash = (processBlocks env l bs2).minBlockHash
        rw [eh1, eh2]
      · rw [em1] at hlt2
        exact absurd hlt2 (lt_irrefl _)
    · rcases hc2 with ⟨em2, _⟩ | ⟨_, b, hfb, hb⟩
      · rw [em2] at hlt1
        exact absurd hlt1 (lt_irrefl _)
      · right
        have hpa := List.find?_some hfa
        have hpb := List.find?_some hfb
        simp only [Bool.and_eq_true, decide_eq_true_eq] at hpa hpb
        exact ⟨a, List.mem_of_find?_eq_some hfa, b,
          hperm.mem_iff.mpr (List.mem_of_find?_eq_some hfb),
          hpa.1, hpb.1, hpa.2, hpb.2, ha.symm, hb.symm⟩
  refine ⟨hmin, ?_, ?_⟩
  · intro hinj
    rcases hboth with h | ⟨a, ha, b, hb, hva, hvb, hda, hdb, hha, hhb⟩
    · exact h
    · have hab : a = b := hinj a ha b hb hva hvb (hda.trans hdb.symm)
      rw [← hha, ← hhb, hab]
  · intro hne
    rcases hboth with h | h
    · exact absurd h hne
    · exact h

/-- Witness for C19 in the scenario: B1 (distance 50), the badly signed block
and B2 (distance 10) in two different orders; the verifying blocks have
distinct distances and both orders make B2 the leader at distance 10. -/
theorem order_independence_witness :
    [B1, Bbad, B2].Perm [B2, B1, Bbad] ∧
    (processBlocks scenario scenarioSelector [B1, Bbad, B2]).minCRSBlock
      = (processBlocks scenario scenarioSelector [B2, B1, Bbad]).minCRSBlock ∧
    leaderBlockHash (processBlocks scenario scenarioSelector [B1, Bbad, B2])
      = leaderBlockHash (processBlocks scenario scenarioSelector [B2, B1, Bbad]) ∧
    leaderBlockHash (processBlocks scenario scenarioSelector [B2, B1, Bbad]) = B2.Hash := by
  have hperm : [B1, Bbad, B2].Perm [B2, B1, Bbad] := by decide
  have h := order_independence scenario scenarioSelector [B1, Bbad, B2] [B2, B1, Bbad] hperm
  refine ⟨hperm, h.1, h.2.1 ?_, by decide⟩
  decide

/-! ## Probability and selection agree -/

/-- Claim C20: for a hash width of at least one byte, every selector and every
two signatures s and t, distance(s) < distance(t) if and only if the exact
rational probability of s (1 - distance(s)/MaxHash) is strictly greater than
that of t; and after processing any sequence of blocks from a fresh or
restarted selector, the probability that corresponds to the recorded
bestDistance, 1 - bestDistance/MaxHash, is at least the probability of every
verifying block of the sequence. -/
theorem probability_consistent {n : Nat} (env : Collaborators n) (hn : 0 < n) :
    (∀ (l : leaderSelector n) (s t : Signature),
      ∃ ps pt : ℚ, probability env l s = some ps ∧ probability env l t = some pt ∧
        (distance env l s < distance env l t ↔ pt < ps)) ∧
    (∀ (l0 : leaderSelector n) (blocks : List (Block n)),
      ((∃ crs sigToPub, l0 = newLeaderSelector crs sigToPub) ∨ (∃ l, l0 = restart l)) →
      ∀ b ∈ blocks, verifies env l0 b = true →
        ∃ pb : ℚ, probability env l0 b.CRSSignature = some pb ∧
          pb ≤ 1 - ((processBlocks env l0 blocks).minCRSBlock : ℚ) / (maxHash n : ℚ)) := by
  have hM : (0 : ℚ) < (maxHash n : ℚ) := by exact_mod_cast maxHash_pos hn
  constructor
  · intro l s t
    refine ⟨_, _, probability_eq env l s hn, probability_eq env l t hn, ?_⟩
    have hdiv : (distance env l s : ℚ) / (maxHash n : ℚ)
          < (distance env l t : ℚ) / (maxHash n : ℚ) ↔
        (distance env l s : ℚ) < (distance env l t : ℚ) := div_lt_div_iff_of_pos_right hM
    constructor
    · intro h
      have hq : (distance env l s : ℚ) < (distance env l t : ℚ) := by exact_mod_cast h
      have := hdiv.mpr hq
      linarith
    · intro h
      have hq : (distance env l s : ℚ) / (maxHash n : ℚ)
          < (distance env l t : ℚ) / (maxHash n : ℚ) := by linarith
      exact_mod_cast hdiv.mp hq
  · intro l0 blocks _ b hb hv
    refine ⟨_, probability_eq env l0 b.CRSSignature hn, ?_⟩
    obtain ⟨hlow, _⟩ := processBlocks_best env l0 blocks l0 rfl rfl rfl
    have hle : ((processBlocks env l0 blocks).minCRSBlock : ℚ)
        ≤ (distance env l0 b.CRSSignature : ℚ) := by exact_mod_cast hlow b hb hv
    have := (div_le_div_iff_of_pos_right hM).mpr hle
    linarith

/-- Witness for C20 in the scenario (hashes of 32 bytes): the signature of B2
is nearer to the CRS than that of B1 and has the larger probability, and after
the run on B1, B2, B3 the probability of B1 is at most the one that goes with
the recorded bestDistance. -/
theorem probability_consistent_witness :
    0 < 32 ∧
    distance scenario scenarioSelector B2.CRSSignature
      < distance scenario scenarioSelector B1.CRSSignature ∧
    (∃ ps pt : ℚ, probability scenario scenarioSelector B2.CRSSignature = some ps ∧
      probability scenario scenarioSelector B1.CRSSignature = some pt ∧ pt < ps) ∧
    ∃ pb : ℚ, probability scenario scenarioSelector B1.CRSSignature = some pb ∧
      pb ≤ 1 - ((processBlocks scenario scenarioSelector [B1, B2, B3]).minCRSBlock : ℚ)
        / (maxHash 32 : ℚ) := by
  have h := probability_consistent scenario (by decide : 0 < 32)
  have hlt : distance scenario scenarioSelector B2.CRSSignature
      < distance scenario scenarioSelector B1.CRSSignature := by decide
  obtain ⟨ps, pt, h1, h2, h3⟩ := h.1 scenarioSelector B2.CRSSignature B1.CRSSignature
  refine ⟨by decide, hlt, ⟨ps, pt, h1, h2, h3.mp hlt⟩, ?_⟩
  exact h.2 scenarioSelector [B1, B2, B3] (Or.inl ⟨scenarioCRS, scenarioSigToPub, rfl⟩)
    B1 (by decide) (by decide)

end DexonCore
